import Mathlib

/-!
# Formation state of `provider/aws/formation.go`

A shallow embedding of the formation codec, of `processFormation` and of
`FormationList`, `FormationGet` and `FormationSave`:
Go strings are `String`s (processed as lists of characters), Go `int` /
`int64` values are `Int`s, a Go map is an association list whose order stands
for the order of one `range` over it, and a Go `error` result is an
`Option GoError` / `Except GoError _`.  `FormationSave` carries the trace of
its external writes, `FormationList` and `FormationGet` the trace of the
collaborators they consult.

Library functions the source calls (`strconv.Atoi`, `strings.SplitN`,
`strings.Contains`, `fmt.Sprintf` with `%d`, `regexp`) are embedded from their
documented behaviour.  The helpers `upperName` and `stackName`, which live in
other files of the package, and the collaborators of the provider are
parameters of the functions that call them.
-/

namespace Formation

/-! ## Go values -/

/-- A Go `map[string]string`, as an association list.  The list order stands
for one of the iteration orders `range` may choose. -/
abbrev GoMap := List (String × String)

/-- The comma-ok lookup `v, ok := m[k]`. -/
def mapGet (m : GoMap) (k : String) : Option String :=
  match m with
  | [] => none
  | (k', v) :: rest => if k' = k then some v else mapGet rest k

/-- The plain index expression `m[k]`: the zero value `""` for a missing key. -/
def mapIndex (m : GoMap) (k : String) : String :=
  (mapGet m k).getD ""

/-- The assignment `m[k] = v`: overwrite the entry of `k`, or add one. -/
def mapSet (m : GoMap) (k v : String) : GoMap :=
  match m with
  | [] => [(k, v)]
  | (k', v') :: rest => if k' = k then (k, v) :: rest else (k', v') :: mapSet rest k v

/-- The keys of a map, in iteration order. -/
def mapKeys (m : GoMap) : List String := m.map Prod.fst

/-- Every entry of `patch` is written over `m` (`for k, v := range patch { m[k] = v }`). -/
def mapMerge (m patch : GoMap) : GoMap :=
  patch.foldl (fun acc kv => mapSet acc kv.1 kv.2) m

/-- A Go `error` value: either an `awserr.Error` (with its `Code()` and the text
of `Error()`), or any other error, of which only the text matters here. -/
inductive GoError where
  | errorf (text : String)
  | aws (code : String) (text : String)
deriving DecidableEq

/-- The value of a Go `int` fits 64 bits. -/
abbrev IsInt64 (n : Int) : Prop := -(2 ^ 63) ≤ n ∧ n < 2 ^ 63

/-! ## `strconv.Atoi` -/

/-- The two kinds of `*strconv.NumError`. -/
inductive NumError where
  | ErrSyntax
  | ErrRange
deriving DecidableEq

/-- Value of a decimal digit byte, `d - '0'`. -/
def digitVal (c : Char) : Nat := c.toNat - 48

/-- The digit loop of `strconv.ParseUint(s, 10, 64)`: a byte that is not a
decimal digit is a syntax error (value 0); leaving 64 bits is a range error
(value `1<<64 - 1`), reported at once. -/
def parseUintLoop : List Char → Nat → Nat × Option NumError
  | [], n => (n, none)
  | c :: cs, n =>
    if c.isDigit then
      if 2 ^ 64 ≤ n * 10 + digitVal c then (2 ^ 64 - 1, some NumError.ErrRange)
      else parseUintLoop cs (n * 10 + digitVal c)
    else (0, some NumError.ErrSyntax)

/-- The function `strconv.ParseUint(s, 10, 64)`. -/
def ParseUint (s : List Char) : Nat × Option NumError :=
  match s with
  | [] => (0, some NumError.ErrSyntax)
  | _ :: _ => parseUintLoop s 0

/-- The function `strconv.ParseInt(s, 10, 0)` on a 64-bit platform: an optional
sign, then `ParseUint`; a magnitude outside of `int` is a range error whose
value is the nearest bound. -/
def ParseInt (s : List Char) : Int × Option NumError :=
  match s with
  | [] => (0, some NumError.ErrSyntax)
  | c :: cs =>
    let neg := decide (c = '-')
    let body := if c = '+' ∨ c = '-' then cs else c :: cs
    match ParseUint body with
    | (_, some NumError.ErrSyntax) => (0, some NumError.ErrSyntax)
    | (un, _) =>
      if neg = false ∧ 2 ^ 63 ≤ un then (2 ^ 63 - 1, some NumError.ErrRange)
      else if neg = true ∧ 2 ^ 63 < un then (-(2 ^ 63), some NumError.ErrRange)
      else (if neg then -(un : Int) else (un : Int), none)

/-- The function `strconv.Atoi`, which is `ParseInt(s, 10, 0)` converted to `int`. -/
def Atoi (s : String) : Int × Option NumError := ParseInt s.data

/-! ## `fmt.Sprintf("%d", n)` -/

/-- The character of a decimal digit. -/
def digitChar (d : Nat) : Char := Char.ofNat (48 + d)

/-- Decimal digits of `n`, most significant first, produced in at most
`fuel + 1` rounds of the formatting loop. -/
def natDigitsFuel : Nat → Nat → List Char
  | 0, n => [digitChar n]
  | fuel + 1, n =>
    if n < 10 then [digitChar n]
    else natDigitsFuel fuel (n / 10) ++ [digitChar (n % 10)]

/-- Decimal digits of a natural number, most significant first (`n` rounds
are always enough, see `natDigitsFuel_eq`). -/
def natDigits (n : Nat) : List Char := natDigitsFuel n n

/-- The verb `%d` applied to an integer: decimal digits, `-` in front of a
negative number. -/
def fmtInt (n : Int) : String :=
  match n with
  | Int.ofNat k => String.mk (natDigits k)
  | Int.negSucc k => String.mk ('-' :: natDigits (k + 1))

/-! ## `strings.SplitN` and `strings.Contains` -/

/-- Cut `s` at the first occurrence of the separator byte `sep`. -/
def cutAt (sep : Char) : List Char → Option (List Char × List Char)
  | [] => none
  | c :: cs =>
    if c = sep then some ([], cs)
    else match cutAt sep cs with
      | none => none
      | some (a, b) => some (c :: a, b)

/-- The function `strings.SplitN(s, sep, n)` for a one-byte separator and
`n ≥ 0`: at most `n` pieces, the last one being the unsplit remainder. -/
def splitNChars (sep : Char) : Nat → List Char → List (List Char)
  | 0, _ => []
  | 1, s => [s]
  | n + 2, s =>
    match cutAt sep s with
    | none => [s]
    | some (a, b) => a :: splitNChars sep (n + 1) b

/-- The function `strings.SplitN` on strings. -/
def SplitN (s : String) (sep : Char) (n : Nat) : List String :=
  (splitNChars sep n s.data).map String.mk

/-- Whether `p` is an initial segment of `s`; the rest of `s` when it is. -/
def dropLit : List Char → List Char → Option (List Char)
  | [], s => some s
  | _ :: _, [] => none
  | p :: ps, c :: cs => if p = c then dropLit ps cs else none

/-- Whether `sub` occurs in `s`, on character lists. -/
def containsChars (sub : List Char) : List Char → Bool
  | [] => (dropLit sub []).isSome
  | c :: cs => (dropLit sub (c :: cs)).isSome || containsChars sub cs

/-- The function `strings.Contains(s, substr)`. -/
def Contains (s substr : String) : Bool := containsChars substr.data s.data

/-! ## Data model (`api/structs`, `manifest`) -/

/-- The fields of `structs.App` that the formation code reads. -/
structure App where
  Name : String
  Release : String
  Parameters : GoMap
  Outputs : GoMap
deriving DecidableEq

/-- The type `structs.ProcessFormation`. -/
structure ProcessFormation where
  Balancer : String
  Name : String
  Count : Int
  Memory : Int
  CPU : Int
  Ports : List Int
deriving DecidableEq

/-- The fields of `structs.Capacity` that the formation code reads (`int64`). -/
structure Capacity where
  InstanceCPU : Int
  InstanceMemory : Int
deriving DecidableEq

/-- The field of `manifest.Service` that the formation code reads. -/
structure Service where
  Name : String
deriving DecidableEq

/-- The type `structs.Event`, with the two entries of its `Data`. -/
structure Event where
  Action : String
  Data : GoMap
deriving DecidableEq

/-- Modelled from the spec: `coalesceString` is defined in another file of the
package; balancer resolution takes the first non-empty value. -/
def coalesceString : List String → String
  | [] => ""
  | s :: ss => if s ≠ "" then s else coalesceString ss

/-- Modelled from the spec: `upperName` is defined in another file of the
package; the first letter and every letter that follows a non-alphanumeric
separator is capitalised and the separators are removed.  `cap` tells that
the next letter is to be capitalised. -/
def upperNameChars : Bool → List Char → List Char
  | _, [] => []
  | cap, c :: cs =>
    if c.isAlphanum then (if cap then c.toUpper else c) :: upperNameChars false cs
    else upperNameChars true cs

/-- Modelled from the spec: the key casing of a process name (`web` gives `Web`),
used for concrete inputs; the functions below take `upperName` as a parameter. -/
def upperNameSpec (name : String) : String := String.mk (upperNameChars true name.data)

/-- An app with the given stack parameters, for concrete inputs. -/
def appWith (params : GoMap) : App :=
  { Name := "app", Release := "R1", Parameters := params, Outputs := [] }

/-! ## Decoding: `parseFormationParameters` -/

/-- The function `parseFormationCombined`. -/
def parseFormationCombined (upperName : String → String) (app : App) (process : String) :
    Except GoError (Int × Int × Int) :=
  let parts := SplitN (mapIndex app.Parameters (upperName process ++ "Formation")) ',' 3
  if parts.length ≠ 3 then
    Except.error (GoError.errorf (process ++ " formation settings not in Count,Cpu,Memory format"))
  else
    match Atoi (parts.getD 0 "") with
    | (_, some _) => Except.error (GoError.errorf (process ++ " count not numeric"))
    | (count, none) =>
      match Atoi (parts.getD 1 "") with
      | (_, some _) => Except.error (GoError.errorf (process ++ " cpu not numeric"))
      | (cpu, none) =>
        match Atoi (parts.getD 2 "") with
        | (_, some _) => Except.error (GoError.errorf (process ++ " memory not numeric"))
        | (memory, none) => Except.ok (count, cpu, memory)

/-- The optional `Cpu` parameter of `parseFormationIndividual`: 0 when the key
is missing (old stacks), the parse result otherwise. -/
def parseCpuParameter (c : Option String) : Int × Option NumError :=
  match c with
  | none => (0, none)
  | some v => Atoi v

/-- The function `parseFormationIndividual`. -/
def parseFormationIndividual (upperName : String → String) (app : App) (process : String) :
    Except GoError (Int × Int × Int) :=
  match Atoi (mapIndex app.Parameters (upperName process ++ "DesiredCount")) with
  | (_, some _) => Except.error (GoError.errorf (process ++ " count not numeric"))
  | (count, none) =>
    match parseCpuParameter (mapGet app.Parameters (upperName process ++ "Cpu")) with
    | (_, some _) => Except.error (GoError.errorf (process ++ " cpu not numeric"))
    | (cpu, none) =>
      match Atoi (mapIndex app.Parameters (upperName process ++ "Memory")) with
      | (_, some _) => Except.error (GoError.errorf (process ++ " memory not numeric"))
      | (memory, none) => Except.ok (count, cpu, memory)

/-- The function `parseFormationParameters`. -/
def parseFormationParameters (upperName : String → String) (app : App) (process : String) :
    Except GoError (Int × Int × Int) :=
  if (mapGet app.Parameters (upperName process ++ "Formation")).isSome then
    parseFormationCombined upperName app process
  else
    parseFormationIndividual upperName app process

/-! ## Port discovery and `processFormation` -/

/-- A match of `<pre>Port(\d+)Host` that starts at the head of `s`: the matched
text and the digits of the group.  `\d+` is greedy and `Host` starts with a
letter, so the group is the whole run of digits. -/
def matchPortAt (pre s : List Char) : Option (List Char × List Char) :=
  match dropLit (pre ++ "Port".data) s with
  | none => none
  | some rest =>
    let ds := rest.takeWhile Char.isDigit
    match dropLit "Host".data (rest.dropWhile Char.isDigit) with
    | none => none
    | some _ => if ds = [] then none else some (pre ++ "Port".data ++ ds ++ "Host".data, ds)

/-- The leftmost match of `<pre>Port(\d+)Host` anywhere in `s`. -/
def findPortMatch (pre : List Char) : List Char → Option (List Char × List Char)
  | [] => none
  | c :: cs =>
    match matchPortAt pre (c :: cs) with
    | some r => some r
    | none => findPortMatch pre cs

/-- The call `re.FindStringSubmatch(key)` for the expression
`regexp.MustCompile(fmt.Sprintf("%sPort(\d+)Host", pre))`, where `pre` is free of
regular-expression metacharacters (it is matched literally): `nil` without a
match, else the matched text followed by the text of the group. -/
def FindStringSubmatch (pre key : String) : List String :=
  match findPortMatch pre.data key.data with
  | none => []
  | some (whole, group) => [String.mk whole, String.mk group]

/-- The port loop of `processFormation` (lines 204-215): the keys of the
parameters are visited in iteration order and each match appends its port. -/
def discoverPorts (upperName : String → String) (a : App) (s : Service) : List Int :=
  (mapKeys a.Parameters).foldl
    (fun ports key =>
      let ms := FindStringSubmatch (upperName s.Name) key
      if ms.length = 2 then ports ++ [(Atoi (ms.getD 1 "")).1] else ports)
    []

/-- The port one key contributes to the loop of `discoverPorts`, if any. -/
def portOfKey (pre key : String) : Option Int :=
  let ms := FindStringSubmatch pre key
  if ms.length = 2 then some (Atoi (ms.getD 1 "")).1 else none

/-- The port one key contributes to the port loop, if any, for an arbitrary
compiled expression `re`, given by its method `re.FindStringSubmatch`. -/
def portWith (find : String → List String) (key : String) : Option Int :=
  let ms := find key
  if ms.length = 2 then some (Atoi (ms.getD 1 "")).1 else none

/-- The port loop of `processFormation` (lines 206-215) for an arbitrary
compiled expression `re`, given by its method `re.FindStringSubmatch`: this
covers every prefix, whatever expression it compiles to. -/
def portLoop (find : String → List String) (keys : List String) : List Int :=
  keys.foldl
    (fun ports key =>
      let ms := find key
      if ms.length = 2 then ports ++ [(Atoi (ms.getD 1 "")).1] else ports)
    []

/-- The function `processFormation`. -/
def processFormation (upperName : String → String) (a : App) (s : Service) :
    Except GoError ProcessFormation :=
  match parseFormationParameters upperName a s.Name with
  | Except.error err => Except.error err
  | Except.ok (count, cpu, memory) =>
    Except.ok
      { Balancer := coalesceString
          [mapIndex a.Outputs ("Balancer" ++ upperName s.Name ++ "Host"), mapIndex a.Outputs "BalancerHost"]
        Name := s.Name
        Count := count
        Memory := memory
        CPU := cpu
        Ports := discoverPorts upperName a s }

/-! ## `FormationSave` -/

/-- The collaborators of `AWSProvider` that `FormationSave` calls. -/
structure AWSProvider where
  AppGet : String → Except GoError App
  CapacityGet : Except GoError Capacity
  updateStack : String → String → GoMap → Option GoError

/-- The external writes of `FormationSave`, in the order they are issued. -/
inductive Effect where
  | EventSend (e : Event)
  | updateStack (name : String) (template : String) (params : GoMap)
deriving DecidableEq

/-- The error of the count check (line 96). -/
def countError (pf : ProcessFormation) : GoError :=
  GoError.errorf ("requested count " ++ fmtInt pf.Count ++ " must be -1 or greater")

/-- The error of the cpu ceiling check (line 100). -/
def cpuTooLargeError (pf : ProcessFormation) (capacity : Capacity) : GoError :=
  GoError.errorf ("requested cpu " ++ fmtInt pf.CPU ++ " greater than instance size "
    ++ fmtInt capacity.InstanceCPU)

/-- The error of the cpu sign check (line 104). -/
def cpuNegativeError (pf : ProcessFormation) : GoError :=
  GoError.errorf ("requested cpu " ++ fmtInt pf.CPU ++ " must be 0 or greater")

/-- The error of the memory ceiling check (line 108). -/
def memoryTooLargeError (pf : ProcessFormation) (capacity : Capacity) : GoError :=
  GoError.errorf ("requested memory " ++ fmtInt pf.Memory ++ " greater than instance size "
    ++ fmtInt capacity.InstanceMemory)

/-- The range checks of `FormationSave` (lines 95-109): the error of the first
failing check, `none` when all pass. -/
def validateFormation (pf : ProcessFormation) (capacity : Capacity) : Option GoError :=
  if pf.Count < -1 then some (countError pf)
  else if pf.CPU > capacity.InstanceCPU then some (cpuTooLargeError pf capacity)
  else if pf.CPU < 0 then some (cpuNegativeError pf)
  else if pf.Memory > capacity.InstanceMemory then some (memoryTooLargeError pf capacity)
  else none

/-- The parameter patch of `FormationSave` (lines 93 and 111-117). -/
def formationPatch (upperName : String → String) (a : App) (pf : ProcessFormation) : GoMap :=
  let params : GoMap := []
  if (mapGet a.Parameters (upperName pf.Name ++ "Formation")).isSome then
    mapSet params (upperName pf.Name ++ "Formation")
      (fmtInt pf.Count ++ "," ++ fmtInt pf.CPU ++ "," ++ fmtInt pf.Memory)
  else
    mapSet
      (mapSet
        (mapSet params (upperName pf.Name ++ "DesiredCount") (fmtInt pf.Count))
        (upperName pf.Name ++ "Cpu") (fmtInt pf.CPU))
      (upperName pf.Name ++ "Memory") (fmtInt pf.Memory)

/-- The classification of the error of `updateStack` (lines 129-140). -/
def classifyUpdateError (app : String) (err : Option GoError) : Option GoError :=
  match err with
  | some (GoError.aws code text) =>
    if code = "ValidationError" then
      if Contains text "No updates are to be performed" then
        some (GoError.errorf ("no updates are to be performed: " ++ app))
      else if Contains text "can not be updated" then
        some (GoError.errorf ("app is already updating: " ++ app))
      else err
    else err
  | _ => err

/-- The scale event `FormationSave` publishes for the app `a` (lines 119-125). -/
def scaleEvent (a : App) : Event :=
  { Action := "release:scale", Data := [("app", a.Name), ("id", a.Release)] }

/-- The function `FormationSave`: the external writes it issues and the error
it returns. -/
def FormationSave (upperName : String → String) (stackName : App → String) (p : AWSProvider)
    (app : String) (pf : ProcessFormation) : List Effect × Option GoError :=
  match p.AppGet app with
  | Except.error err => ([], some err)
  | Except.ok a =>
    match p.CapacityGet with
    | Except.error err => ([], some err)
    | Except.ok capacity =>
      match validateFormation pf capacity with
      | some err => ([], some err)
      | none =>
        let params := formationPatch upperName a pf
        ([Effect.EventSend (scaleEvent a), Effect.updateStack (stackName a) "" params],
          classifyUpdateError app (p.updateStack (stackName a) "" params))

/-- A provider whose app store holds `a`, whose cluster has capacity `capacity`
and whose stack update reports `result`, for concrete inputs. -/
def providerWith (a : App) (capacity : Capacity) (result : Option GoError) : AWSProvider :=
  { AppGet := fun _ => Except.ok a
    CapacityGet := Except.ok capacity
    updateStack := fun _ _ _ => result }

/-! ## `FormationList` and `FormationGet` -/

/-- The fields of `structs.Release` that the formation code reads. -/
structure Release where
  Id : String
  Manifest : String
deriving DecidableEq

/-- The field of `manifest.Manifest` that the formation code reads: `Services`
is a Go map from process name to service (`FormationGet` indexes it by name
with the comma-ok form).  The list order stands for the order in which one
`range` over the map visits its entries; it is not part of the map. -/
structure Manifest where
  Services : List (String × Service)
deriving DecidableEq

/-- The comma-ok lookup `s, ok := manifest.Services[process]`. -/
def servicesGet (services : List (String × Service)) (process : String) : Option Service :=
  match services with
  | [] => none
  | (name, s) :: rest => if name = process then some s else servicesGet rest process

/-- The collaborators `FormationList` and `FormationGet` consult, in the order
of the calls. -/
inductive Call where
  | AppGet (app : String)
  | ReleaseGet (app : String) (id : String)
  | manifestLoad (data : String)
deriving DecidableEq

/-- The loop of `FormationList` (lines 38-47): the services are visited in
iteration order, each formation is appended, the first error aborts. -/
def formationLoop (upperName : String → String) (a : App) :
    List (String × Service) → List ProcessFormation → Except GoError (List ProcessFormation)
  | [], formation => Except.ok formation
  | (_, s) :: rest, formation =>
    match processFormation upperName a s with
    | Except.error err => Except.error err
    | Except.ok pf => formationLoop upperName a rest (formation ++ [pf])

/-- The function `FormationList`: the collaborators it consults and its result.
`ReleaseGet` is the release store of the provider and `manifestLoad` is
`manifest.Load`. -/
def FormationList (upperName : String → String) (p : AWSProvider)
    (ReleaseGet : String → String → Except GoError Release)
    (manifestLoad : String → Except GoError Manifest) (app : String) :
    List Call × Except GoError (List ProcessFormation) :=
  match p.AppGet app with
  | Except.error err => ([Call.AppGet app], Except.error err)
  | Except.ok a =>
    if a.Release = "" then ([Call.AppGet app], Except.ok [])
    else
      match ReleaseGet a.Name a.Release with
      | Except.error err => ([Call.AppGet app, Call.ReleaseGet a.Name a.Release], Except.error err)
      | Except.ok release =>
        match manifestLoad release.Manifest with
        | Except.error _ =>
          ([Call.AppGet app, Call.ReleaseGet a.Name a.Release, Call.manifestLoad release.Manifest],
            Except.error (GoError.errorf ("could not parse manifest for release: " ++ release.Id)))
        | Except.ok manifest =>
          ([Call.AppGet app, Call.ReleaseGet a.Name a.Release, Call.manifestLoad release.Manifest],
            formationLoop upperName a manifest.Services [])

/-- The function `FormationGet`: the collaborators it consults and its result. -/
def FormationGet (upperName : String → String) (p : AWSProvider)
    (ReleaseGet : String → String → Except GoError Release)
    (manifestLoad : String → Except GoError Manifest) (app process : String) :
    List Call × Except GoError ProcessFormation :=
  match p.AppGet app with
  | Except.error err => ([Call.AppGet app], Except.error err)
  | Except.ok a =>
    if a.Release = "" then
      ([Call.AppGet app], Except.error (GoError.errorf ("no release for app: " ++ app)))
    else
      match ReleaseGet a.Name a.Release with
      | Except.error err => ([Call.AppGet app, Call.ReleaseGet a.Name a.Release], Except.error err)
      | Except.ok release =>
        match manifestLoad release.Manifest with
        | Except.error _ =>
          ([Call.AppGet app, Call.ReleaseGet a.Name a.Release, Call.manifestLoad release.Manifest],
            Except.error (GoError.errorf ("could not parse manifest for release: " ++ release.Id)))
        | Except.ok manifest =>
          ([Call.AppGet app, Call.ReleaseGet a.Name a.Release, Call.manifestLoad release.Manifest],
            match servicesGet manifest.Services process with
            | none => Except.error (GoError.errorf ("no such process: " ++ process))
            | some s => processFormation upperName a s)

/-- A released app with the given stack parameters and outputs, for concrete inputs. -/
def releasedApp (params outputs : GoMap) : App :=
  { Name := "app", Release := "R1", Parameters := params, Outputs := outputs }

/-- A release store that holds one release with the given manifest text, for
concrete inputs. -/
def releaseStore (manifest : String) : String → String → Except GoError Release :=
  fun _ id => Except.ok { Id := id, Manifest := manifest }

/-- A manifest loader that returns the given services map, for concrete inputs. -/
def loaderOf (services : List (String × Service)) : String → Except GoError Manifest :=
  fun _ => Except.ok { Services := services }

/-! ## Specification-side notions -/

/-- The range rules of the validator. -/
def RangeRules (pf : ProcessFormation) (capacity : Capacity) : Prop :=
  -1 ≤ pf.Count ∧ 0 ≤ pf.CPU ∧ pf.CPU ≤ capacity.InstanceCPU ∧
    pf.Memory ≤ capacity.InstanceMemory

/-- A requested formation, for concrete inputs. -/
def formationOf (name : String) (count cpu memory : Int) : ProcessFormation :=
  { Balancer := "", Name := name, Count := count, Memory := memory, CPU := cpu, Ports := [] }

/-- The text `marker` occurs somewhere in `text`. -/
def Occurs (marker text : String) : Prop := ∃ l r : String, text = l ++ marker ++ r

/-- A non-empty run of decimal digits. -/
def IsDecimal (ds : List Char) : Prop := ds ≠ [] ∧ ∀ c ∈ ds, c.isDigit = true

/-- The number a run of decimal digits denotes. -/
def decimalValue (ds : List Char) : Nat := ds.foldl (fun n c => n * 10 + digitVal c) 0

/-- The pattern `<pre>Port<N>Host`, with `N` one or more decimal digits, occurs
somewhere in `key`. -/
def PortPatternOccurs (pre key : String) (N : List Char) : Prop :=
  IsDecimal N ∧ ∃ l r, key.data = l ++ (pre.data ++ "Port".data ++ N ++ "Host".data) ++ r

/-- The characters `s` are a valid integer literal with value `n`: an optional
sign followed by one or more decimal digits, the value fitting an `int`. -/
def IntLiteralChars (s : List Char) (n : Int) : Prop :=
  IsInt64 n ∧ ∃ ds, IsDecimal ds ∧
    (((s = ds ∨ s = '+' :: ds) ∧ n = (decimalValue ds : Int)) ∨
      (s = '-' :: ds ∧ n = -(decimalValue ds : Int)))

/-- The string `s` is a valid integer literal with value `n`. -/
def IntLiteral (s : String) (n : Int) : Prop := IntLiteralChars s.data n

/-- The string `s` is a valid integer literal. -/
def IsIntLiteral (s : String) : Prop := ∃ n, IntLiteral s n

/-- The error `<process> <field> not numeric` of the decoders. -/
def notNumericError (process field : String) : GoError :=
  GoError.errorf (process ++ " " ++ field ++ " not numeric")

/-- The error `<process> formation settings not in Count,Cpu,Memory format`. -/
def formatError (process : String) : GoError :=
  GoError.errorf (process ++ " formation settings not in Count,Cpu,Memory format")

/-! ## Maps -/

theorem mapGet_mapSet (m : GoMap) (k v k' : String) :
    mapGet (mapSet m k v) k' = if k = k' then some v else mapGet m k' := by
  induction m with
  | nil => simp [mapSet, mapGet]
  | cons e rest ih =>
    obtain ⟨k0, v0⟩ := e
    by_cases h : k0 = k
    · subst h
      by_cases h' : k0 = k' <;> simp [mapSet, mapGet, h']
    · by_cases h' : k0 = k'
      · subst h'
        simp [mapSet, mapGet, h, Ne.symm h]
      · simp [mapSet, mapGet, h, h', ih]

/-! ## `strconv.Atoi` -/

theorem parseUintLoop_error (cs : List Char) (n un : Nat) (e : NumError)
    (h : parseUintLoop cs n = (un, some e)) :
    (e = NumError.ErrSyntax ∧ un = 0) ∨ (e = NumError.ErrRange ∧ un = 2 ^ 64 - 1) := by
  induction cs generalizing n with
  | nil => simp [parseUintLoop] at h
  | cons c cs ih =>
    simp only [parseUintLoop] at h
    split at h
    · split at h
      · simp only [Prod.mk.injEq, Option.some.injEq] at h
        exact Or.inr ⟨h.2.symm, h.1.symm⟩
      · exact ih _ h
    · simp only [Prod.mk.injEq, Option.some.injEq] at h
      exact Or.inl ⟨h.2.symm, h.1.symm⟩

theorem le_foldl_decimal (cs : List Char) (n : Nat) :
    n ≤ cs.foldl (fun n c => n * 10 + digitVal c) n := by
  induction cs generalizing n with
  | nil => simp
  | cons c cs ih =>
    simp only [List.foldl_cons]
    exact le_trans (by omega) (ih _)

theorem parseUintLoop_ok_iff (cs : List Char) (n m : Nat) (hn : n < 2 ^ 64) :
    parseUintLoop cs n = (m, none) ↔
      (∀ c ∈ cs, c.isDigit = true) ∧ m = cs.foldl (fun n c => n * 10 + digitVal c) n ∧
        m < 2 ^ 64 := by
  induction cs generalizing n with
  | nil =>
    simp only [parseUintLoop, Prod.mk.injEq, and_true, List.not_mem_nil, false_implies,
      implies_true, true_and, List.foldl_nil]
    constructor
    · intro h; subst h; exact ⟨rfl, hn⟩
    · intro h; exact h.1.symm
  | cons c cs ih =>
    simp only [parseUintLoop, List.mem_cons, forall_eq_or_imp, List.foldl_cons]
    by_cases hd : c.isDigit = true
    · simp only [hd, if_true, true_and]
      by_cases hov : 2 ^ 64 ≤ n * 10 + digitVal c
      · simp only [hov, if_true]
        constructor
        · intro h
          simp at h
        · rintro ⟨_, hm, hlt⟩
          have := le_foldl_decimal cs (n * 10 + digitVal c)
          omega
      · simp only [hov, if_false]
        exact ih _ (by omega)
    · simp [hd]

theorem ParseUint_ok_iff (s : List Char) (m : Nat) :
    ParseUint s = (m, none) ↔ IsDecimal s ∧ m = decimalValue s ∧ m < 2 ^ 64 := by
  cases s with
  | nil => simp [ParseUint, IsDecimal]
  | cons c cs =>
    simp only [ParseUint, IsDecimal, decimalValue, ne_eq, reduceCtorEq, not_false_eq_true,
      true_and]
    rw [parseUintLoop_ok_iff _ _ _ (by norm_num)]

theorem ParseUint_error (s : List Char) (un : Nat) (e : NumError)
    (h : ParseUint s = (un, some e)) :
    (e = NumError.ErrSyntax ∧ un = 0) ∨ (e = NumError.ErrRange ∧ un = 2 ^ 64 - 1) := by
  cases s with
  | nil =>
    simp only [ParseUint, Prod.mk.injEq, Option.some.injEq] at h
    exact Or.inl ⟨h.2.symm, h.1.symm⟩
  | cons c cs => exact parseUintLoop_error _ _ _ _ h

theorem IsDecimal_head_isDigit {c : Char} {cs : List Char} (h : IsDecimal (c :: cs)) :
    c.isDigit = true := h.2 c (List.mem_cons_self _ _)

theorem isDigit_ne_sign {c : Char} (h : c.isDigit = true) : c ≠ '+' ∧ c ≠ '-' := by
  constructor <;> (intro hc; subst hc; revert h; decide)

theorem ParseInt_of_literal (s : List Char) (n : Int) (h : IntLiteralChars s n) :
    ParseInt s = (n, none) := by
  obtain ⟨⟨hlo, hhi⟩, ds, hds, h⟩ := h
  rcases h with ⟨hs | hs, hn⟩ | ⟨hs, hn⟩
  · subst hs
    cases s with
    | nil => exact absurd rfl hds.1
    | cons c cs =>
      obtain ⟨h1, h2⟩ := isDigit_ne_sign (IsDecimal_head_isDigit hds)
      have hp : ParseUint (c :: cs) = (decimalValue (c :: cs), none) :=
        (ParseUint_ok_iff _ _).2 ⟨hds, rfl, by omega⟩
      simp only [ParseInt, h1, h2, or_self, if_false, hp, decide_False]
      have : ¬ (2 ^ 63 ≤ decimalValue (c :: cs)) := by omega
      simp [this, hn]
      omega
  · subst hs
    have hp : ParseUint ds = (decimalValue ds, none) :=
      (ParseUint_ok_iff _ _).2 ⟨hds, rfl, by omega⟩
    have : ¬ (2 ^ 63 ≤ decimalValue ds) := by omega
    simp [ParseInt, hp, this, hn]
    omega
  · subst hs
    have hp : ParseUint ds = (decimalValue ds, none) :=
      (ParseUint_ok_iff _ _).2 ⟨hds, rfl, by omega⟩
    have : ¬ (2 ^ 63 < decimalValue ds) := by omega
    simp [ParseInt, hp, this, hn]
    omega

theorem ParseInt_ok_literal (s : List Char) (n : Int) (h : ParseInt s = (n, none)) :
    IntLiteralChars s n := by
  cases s with
  | nil => simp [ParseInt] at h
  | cons c cs =>
    simp only [ParseInt] at h
    rcases hp : ParseUint (if c = '+' ∨ c = '-' then cs else c :: cs) with ⟨un, _ | e⟩
    · rw [hp] at h
      obtain ⟨hdec, hun, hlt⟩ := (ParseUint_ok_iff _ _).1 hp
      simp only at h
      split at h
      · simp at h
      · split at h
        · simp at h
        · rename_i h1 h2
          simp only [Prod.mk.injEq, and_true] at h
          by_cases hm : c = '-'
          · subst hm
            simp only [decide_True, if_true, true_and, not_lt, Bool.true_eq_false, false_and,
              not_false_eq_true, or_true] at h h1 h2 hdec hun
            refine ⟨⟨by omega, by omega⟩, cs, hdec, Or.inr ⟨rfl, ?_⟩⟩
            omega
          · simp only [hm, decide_False, true_and, not_le, or_false, Bool.false_eq_true,
              if_false] at h h1 h2 hdec hun
            by_cases hpl : c = '+'
            · subst hpl
              simp only [if_true] at hdec hun
              exact ⟨⟨by omega, by omega⟩, cs, hdec, Or.inl ⟨Or.inr rfl, by omega⟩⟩
            · simp only [hpl, if_false] at hdec hun
              exact ⟨⟨by omega, by omega⟩, c :: cs, hdec, Or.inl ⟨Or.inl rfl, by omega⟩⟩
    · rw [hp] at h
      rcases ParseUint_error _ _ _ hp with ⟨he, hu⟩ | ⟨he, hu⟩
      · subst he
        simp at h
      · subst he; subst hu
        simp only at h
        by_cases hm : c = '-' <;> simp [hm] at h

theorem Atoi_ok_iff (s : String) (n : Int) : Atoi s = (n, none) ↔ IntLiteral s n :=
  ⟨fun h => ParseInt_ok_literal _ _ h, fun h => ParseInt_of_literal _ _ h⟩

/-! ## `fmt.Sprintf("%d", n)` -/

theorem digitChar_spec (d : Nat) (h : d < 10) :
    (digitChar d).isDigit = true ∧ digitVal (digitChar d) = d := by
  interval_cases d <;> decide

theorem decimalValue_append_singleton (xs : List Char) (c : Char) :
    decimalValue (xs ++ [c]) = decimalValue xs * 10 + digitVal c := by
  simp [decimalValue, List.foldl_append]

theorem natDigitsFuel_spec (fuel n : Nat) (h : n ≤ fuel) :
    IsDecimal (natDigitsFuel fuel n) ∧ decimalValue (natDigitsFuel fuel n) = n := by
  induction fuel generalizing n with
  | zero =>
    have : n = 0 := by omega
    subst this
    exact ⟨⟨by simp [natDigitsFuel], by decide⟩, by decide⟩
  | succ fuel ih =>
    simp only [natDigitsFuel]
    by_cases hlt : n < 10
    · simp only [hlt, if_true]
      obtain ⟨h1, h2⟩ := digitChar_spec n hlt
      refine ⟨⟨by simp, ?_⟩, ?_⟩
      · intro c hc
        simp only [List.mem_singleton] at hc
        subst hc
        exact h1
      · simp [decimalValue, h2]
    · simp only [hlt, if_false]
      obtain ⟨⟨_, hd⟩, hv⟩ := ih (n / 10) (by omega)
      obtain ⟨h1, h2⟩ := digitChar_spec (n % 10) (by omega)
      refine ⟨⟨by simp, ?_⟩, ?_⟩
      · intro c hc
        simp only [List.mem_append, List.mem_singleton] at hc
        rcases hc with hc | hc
        · exact hd c hc
        · subst hc
          exact h1
      · rw [decimalValue_append_singleton, hv, h2]
        omega

theorem natDigits_spec (n : Nat) : IsDecimal (natDigits n) ∧ decimalValue (natDigits n) = n :=
  natDigitsFuel_spec n n (Nat.le_refl n)

/-- The text `%d` prints is read back by `Atoi` as the same number. -/
theorem Atoi_fmtInt (n : Int) (h : IsInt64 n) : Atoi (fmtInt n) = (n, none) := by
  rw [Atoi_ok_iff]
  refine ⟨h, ?_⟩
  cases n with
  | ofNat k =>
    obtain ⟨hd, hv⟩ := natDigits_spec k
    exact ⟨natDigits k, hd, Or.inl ⟨Or.inl rfl, by simp [hv]⟩⟩
  | negSucc k =>
    obtain ⟨hd, hv⟩ := natDigits_spec (k + 1)
    refine ⟨natDigits (k + 1), hd, Or.inr ⟨rfl, ?_⟩⟩
    rw [hv]
    rfl

theorem IntLiteralChars_no_comma (s : List Char) (n : Int) (h : IntLiteralChars s n) :
    ',' ∉ s := by
  obtain ⟨_, ds, ⟨_, hd⟩, h⟩ := h
  have hds : ',' ∉ ds := fun hc => absurd (hd _ hc) (by decide)
  rcases h with ⟨hs | hs, _⟩ | ⟨hs, _⟩ <;> subst hs
  · exact hds
  · simp only [List.mem_cons, not_or]
    exact ⟨by decide, hds⟩
  · simp only [List.mem_cons, not_or]
    exact ⟨by decide, hds⟩

/-! ## `strings.SplitN` -/

theorem cutAt_append (sep : Char) (a b : List Char) (h : sep ∉ a) :
    cutAt sep (a ++ sep :: b) = some (a, b) := by
  induction a with
  | nil => simp [cutAt]
  | cons x xs ih =>
    simp only [List.mem_cons, not_or] at h
    simp [cutAt, Ne.symm h.1, ih h.2]

theorem cutAt_some (sep : Char) (s a b : List Char) (h : cutAt sep s = some (a, b)) :
    s = a ++ sep :: b ∧ sep ∉ a := by
  induction s generalizing a with
  | nil => simp [cutAt] at h
  | cons c cs ih =>
    simp only [cutAt] at h
    by_cases hc : c = sep
    · subst hc
      simp only [if_true, Option.some.injEq, Prod.mk.injEq] at h
      obtain ⟨rfl, rfl⟩ := h
      simp
    · simp only [hc, if_false] at h
      cases hr : cutAt sep cs with
      | none => simp [hr] at h
      | some r =>
        obtain ⟨a', b'⟩ := r
        simp only [hr, Option.some.injEq, Prod.mk.injEq] at h
        obtain ⟨rfl, rfl⟩ := h
        obtain ⟨h1, h2⟩ := ih a' hr
        refine ⟨by simp [h1], ?_⟩
        simp only [List.mem_cons, not_or]
        exact ⟨Ne.symm hc, h2⟩

theorem splitNChars_three_iff (s x y z : List Char) :
    splitNChars ',' 3 s = [x, y, z] ↔
      s = x ++ ',' :: (y ++ ',' :: z) ∧ ',' ∉ x ∧ ',' ∉ y := by
  constructor
  · intro h
    simp only [splitNChars] at h
    cases h1 : cutAt ',' s with
    | none => simp [h1] at h
    | some r =>
      obtain ⟨a, b⟩ := r
      simp only [h1, List.cons.injEq] at h
      obtain ⟨rfl, h⟩ := h
      cases h2 : cutAt ',' b with
      | none => simp [h2] at h
      | some r2 =>
        obtain ⟨a2, b2⟩ := r2
        simp only [h2, List.cons.injEq, and_true] at h
        obtain ⟨rfl, rfl⟩ := h
        obtain ⟨e1, n1⟩ := cutAt_some _ _ _ _ h1
        obtain ⟨e2, n2⟩ := cutAt_some _ _ _ _ h2
        exact ⟨by rw [e1, e2], n1, n2⟩
  · rintro ⟨rfl, n1, n2⟩
    simp [splitNChars, cutAt_append _ _ _ n1, cutAt_append _ _ _ n2]

/-! ## Strings -/

theorem append_right_ne (pre x y : String) (h : x ≠ y) : pre ++ x ≠ pre ++ y := by
  intro he
  apply h
  have := congrArg String.data he
  simp only [String.data_append] at this
  exact String.ext (List.append_cancel_left this)

theorem SplitN_three (a b c : String) (ha : ',' ∉ a.data) (hb : ',' ∉ b.data) :
    SplitN (a ++ "," ++ b ++ "," ++ c) ',' 3 = [a, b, c] := by
  have h : (a ++ "," ++ b ++ "," ++ c).data = a.data ++ ',' :: (b.data ++ ',' :: c.data) := by
    simp [String.data_append]
  simp only [SplitN, h, (splitNChars_three_iff _ _ _ _).2 ⟨rfl, ha, hb⟩]
  rfl

theorem SplitN_three_inv (v a b c : String) (h : SplitN v ',' 3 = [a, b, c]) :
    v = a ++ "," ++ b ++ "," ++ c ∧ ',' ∉ a.data ∧ ',' ∉ b.data := by
  simp only [SplitN] at h
  match hs : splitNChars ',' 3 v.data, h with
  | [x, y, z], h =>
    simp only [List.map_cons, List.map_nil, List.cons.injEq, and_true] at h
    obtain ⟨rfl, rfl, rfl⟩ := h
    obtain ⟨e, n1, n2⟩ := (splitNChars_three_iff _ _ _ _).1 hs
    refine ⟨String.ext ?_, n1, n2⟩
    simp [String.data_append, e]

theorem Atoi_cases (s : String) :
    (∃ n, Atoi s = (n, none) ∧ IntLiteral s n) ∨
      (∃ n e, Atoi s = (n, some e) ∧ ∀ m, ¬ IntLiteral s m) := by
  rcases h : Atoi s with ⟨n, _ | e⟩
  · exact Or.inl ⟨n, rfl, (Atoi_ok_iff s n).1 h⟩
  · refine Or.inr ⟨n, e, rfl, fun m hm => ?_⟩
    rw [(Atoi_ok_iff s m).2 hm] at h
    simp at h

/-! ## Decoding -/

theorem parseFormationCombined_eq_ok (upperName : String → String) (app : App)
    (process : String) (count cpu memory : Int) :
    parseFormationCombined upperName app process = Except.ok (count, cpu, memory) ↔
      ∃ a b c : String,
        mapIndex app.Parameters (upperName process ++ "Formation")
            = a ++ "," ++ b ++ "," ++ c ∧
          IntLiteral a count ∧ IntLiteral b cpu ∧ IntLiteral c memory := by
  constructor
  · intro h
    simp only [parseFormationCombined] at h
    split at h
    · simp at h
    · rename_i hlen
      simp only [ne_eq, not_not] at hlen
      match hs : SplitN (mapIndex app.Parameters (upperName process ++ "Formation")) ',' 3,
        hlen with
      | [a, b, c], _ =>
        obtain ⟨hv, _, _⟩ := SplitN_three_inv _ _ _ _ hs
        rw [hs] at h
        simp only [List.getD_cons_zero, List.getD_cons_succ] at h
        rcases Atoi_cases a with ⟨n1, e1, l1⟩ | ⟨n1, x1, e1, _⟩ <;> rw [e1] at h <;>
          simp only [reduceCtorEq] at h
        rcases Atoi_cases b with ⟨n2, e2, l2⟩ | ⟨n2, x2, e2, _⟩ <;> rw [e2] at h <;>
          simp only [reduceCtorEq] at h
        rcases Atoi_cases c with ⟨n3, e3, l3⟩ | ⟨n3, x3, e3, _⟩ <;> rw [e3] at h <;>
          simp only [reduceCtorEq] at h
        simp only [Except.ok.injEq, Prod.mk.injEq] at h
        obtain ⟨rfl, rfl, rfl⟩ := h
        exact ⟨a, b, c, hv, l1, l2, l3⟩
  · rintro ⟨a, b, c, hv, l1, l2, l3⟩
    have hs := SplitN_three a b c (IntLiteralChars_no_comma _ _ l1)
      (IntLiteralChars_no_comma _ _ l2)
    simp [parseFormationCombined, hv, hs, (Atoi_ok_iff _ _).2 l1, (Atoi_ok_iff _ _).2 l2,
      (Atoi_ok_iff _ _).2 l3]

theorem IntLiteral_empty (n : Int) : ¬ IntLiteral "" n := by
  rintro ⟨_, ds, ⟨hne, _⟩, h⟩
  rcases h with ⟨hs | hs, _⟩ | ⟨hs, _⟩
  · exact hne hs.symm
  · simp at hs
  · simp at hs

theorem Atoi_mapIndex_literal (m : GoMap) (k : String) (n : Int) :
    IntLiteral (mapIndex m k) n ↔ ∃ v, mapGet m k = some v ∧ IntLiteral v n := by
  unfold mapIndex
  cases h : mapGet m k with
  | none =>
    simp only [Option.getD_none, reduceCtorEq, false_and, exists_false, iff_false]
    exact IntLiteral_empty n
  | some v => simp

theorem parseCpuParameter_ok_iff (c : Option String) (n : Int) :
    parseCpuParameter c = (n, none) ↔
      (c = none ∧ n = 0) ∨ ∃ v, c = some v ∧ IntLiteral v n := by
  cases c with
  | none =>
    simp only [parseCpuParameter, Prod.mk.injEq, and_true, true_and, reduceCtorEq, false_and,
      exists_false, or_false]
    exact eq_comm
  | some v => simp [parseCpuParameter, Atoi_ok_iff]

theorem parseFormationIndividual_eq_ok (upperName : String → String) (app : App)
    (process : String) (count cpu memory : Int) :
    parseFormationIndividual upperName app process = Except.ok (count, cpu, memory) ↔
      (∃ v, mapGet app.Parameters (upperName process ++ "DesiredCount") = some v ∧
        IntLiteral v count) ∧
      ((mapGet app.Parameters (upperName process ++ "Cpu") = none ∧ cpu = 0) ∨
        ∃ v, mapGet app.Parameters (upperName process ++ "Cpu") = some v ∧ IntLiteral v cpu) ∧
      (∃ v, mapGet app.Parameters (upperName process ++ "Memory") = some v ∧
        IntLiteral v memory) := by
  rw [← parseCpuParameter_ok_iff, ← Atoi_mapIndex_literal app.Parameters
    (upperName process ++ "DesiredCount"), ← Atoi_mapIndex_literal app.Parameters
    (upperName process ++ "Memory"), ← Atoi_ok_iff, ← Atoi_ok_iff]
  simp only [parseFormationIndividual]
  rcases h1 : Atoi (mapIndex app.Parameters (upperName process ++ "DesiredCount"))
    with ⟨n1, _ | e1⟩
  · rcases h2 : parseCpuParameter (mapGet app.Parameters (upperName process ++ "Cpu"))
      with ⟨n2, _ | e2⟩
    · rcases h3 : Atoi (mapIndex app.Parameters (upperName process ++ "Memory"))
        with ⟨n3, _ | e3⟩
      · simp
      · simp
    · simp
  · simp

/-! ## `FormationSave`: validation -/

theorem validateFormation_eq_none_iff (pf : ProcessFormation) (capacity : Capacity) :
    validateFormation pf capacity = none ↔ RangeRules pf capacity := by
  unfold validateFormation RangeRules
  split_ifs <;> simp <;> omega

theorem validateFormation_mem (pf : ProcessFormation) (capacity : Capacity) (e : GoError)
    (h : validateFormation pf capacity = some e) :
    e ∈ [countError pf, cpuTooLargeError pf capacity, cpuNegativeError pf,
      memoryTooLargeError pf capacity] := by
  unfold validateFormation at h
  split_ifs at h <;> simp at h <;> subst h <;> simp

theorem FormationSave_rejected (upperName : String → String) (stackName : App → String)
    (p : AWSProvider) (app : String) (pf : ProcessFormation) (a : App) (capacity : Capacity)
    (e : GoError) (hA : p.AppGet app = Except.ok a) (hC : p.CapacityGet = Except.ok capacity)
    (hv : validateFormation pf capacity = some e) :
    FormationSave upperName stackName p app pf = ([], some e) := by
  simp [FormationSave, hA, hC, hv]

theorem FormationSave_accepted (upperName : String → String) (stackName : App → String)
    (p : AWSProvider) (app : String) (pf : ProcessFormation) (a : App) (capacity : Capacity)
    (hA : p.AppGet app = Except.ok a) (hC : p.CapacityGet = Except.ok capacity)
    (hv : validateFormation pf capacity = none) :
    FormationSave upperName stackName p app pf =
      ([Effect.EventSend (scaleEvent a),
          Effect.updateStack (stackName a) "" (formationPatch upperName a pf)],
        classifyUpdateError app (p.updateStack (stackName a) "" (formationPatch upperName a pf))) := by
  simp [FormationSave, hA, hC, hv]

/-! ## `strings.Contains` -/

theorem dropLit_eq_some_iff (p s r : List Char) : dropLit p s = some r ↔ s = p ++ r := by
  induction p generalizing s with
  | nil =>
    simp only [dropLit, Option.some.injEq, List.nil_append]
  | cons x xs ih =>
    cases s with
    | nil => simp [dropLit]
    | cons c cs =>
      simp only [dropLit, List.cons_append, List.cons.injEq]
      by_cases hx : x = c
      · simp [hx, ih]
      · simp [hx, Ne.symm hx]

theorem containsChars_iff (sub s : List Char) :
    containsChars sub s = true ↔ ∃ l r, s = l ++ sub ++ r := by
  induction s with
  | nil =>
    simp only [containsChars, Option.isSome_iff_exists, dropLit_eq_some_iff]
    constructor
    · rintro ⟨r, h⟩
      exact ⟨[], r, by simpa using h⟩
    · rintro ⟨l, r, h⟩
      have h' := congrArg List.length h
      simp only [List.length_nil, List.length_append] at h'
      have hl : l = [] := List.length_eq_zero.1 (by omega)
      subst hl
      exact ⟨r, by simpa using h⟩
  | cons c cs ih =>
    simp only [containsChars, Bool.or_eq_true, Option.isSome_iff_exists, dropLit_eq_some_iff, ih]
    constructor
    · rintro (⟨r, h⟩ | ⟨l, r, h⟩)
      · exact ⟨[], r, by simpa using h⟩
      · exact ⟨c :: l, r, by simp [h]⟩
    · rintro ⟨l, r, h⟩
      cases l with
      | nil => exact Or.inl ⟨r, by simpa using h⟩
      | cons x xs =>
        simp only [List.cons_append, List.cons.injEq] at h
        exact Or.inr ⟨xs, r, by simpa using h.2⟩

theorem Contains_iff (text marker : String) : Contains text marker = true ↔ Occurs marker text := by
  unfold Contains Occurs
  rw [containsChars_iff]
  constructor
  · rintro ⟨l, r, h⟩
    exact ⟨String.mk l, String.mk r, String.ext (by simp [String.data_append, h])⟩
  · rintro ⟨l, r, h⟩
    exact ⟨l.data, r.data, by simp [h, String.data_append]⟩

/-! ## `FormationSave`: the patch -/

theorem formationPatch_eq (upperName : String → String) (a : App) (pf : ProcessFormation) :
    formationPatch upperName a pf =
      if (mapGet a.Parameters (upperName pf.Name ++ "Formation")).isSome then
        [(upperName pf.Name ++ "Formation",
          fmtInt pf.Count ++ "," ++ fmtInt pf.CPU ++ "," ++ fmtInt pf.Memory)]
      else
        [(upperName pf.Name ++ "DesiredCount", fmtInt pf.Count),
          (upperName pf.Name ++ "Cpu", fmtInt pf.CPU),
          (upperName pf.Name ++ "Memory", fmtInt pf.Memory)] := by
  unfold formationPatch
  split
  · rfl
  · simp [mapSet, append_right_ne (upperName pf.Name) "DesiredCount" "Cpu" (by decide),
      append_right_ne (upperName pf.Name) "DesiredCount" "Memory" (by decide),
      append_right_ne (upperName pf.Name) "Cpu" "Memory" (by decide)]

/-! ## Port discovery -/

theorem not_isDigit_H : Char.isDigit 'H' = false := by decide

theorem takeWhile_digits_append (ds rest : List Char) (hd : ∀ c ∈ ds, c.isDigit = true) :
    (ds ++ 'H' :: rest).takeWhile Char.isDigit = ds ∧
      (ds ++ 'H' :: rest).dropWhile Char.isDigit = 'H' :: rest := by
  induction ds with
  | nil => simp [List.takeWhile, List.dropWhile, not_isDigit_H]
  | cons x xs ih =>
    have hx : x.isDigit = true := hd x (List.mem_cons_self _ _)
    obtain ⟨h1, h2⟩ := ih (fun c hc => hd c (List.mem_cons_of_mem _ hc))
    simp [List.takeWhile, List.dropWhile, hx, h1, h2]

theorem matchPortAt_of_eq (pre ds rest : List Char) (hds : IsDecimal ds) :
    matchPortAt pre (pre ++ "Port".data ++ ds ++ "Host".data ++ rest) =
      some (pre ++ "Port".data ++ ds ++ "Host".data, ds) := by
  have h1 : dropLit (pre ++ "Port".data) (pre ++ "Port".data ++ ds ++ "Host".data ++ rest)
      = some (ds ++ 'H' :: ('o' :: 's' :: 't' :: rest)) := by
    rw [dropLit_eq_some_iff]
    simp
  obtain ⟨h2, h3⟩ := takeWhile_digits_append ds ('o' :: 's' :: 't' :: rest) hds.2
  have h4 : dropLit "Host".data ('H' :: 'o' :: 's' :: 't' :: rest) = some rest := by
    rw [dropLit_eq_some_iff]
    rfl
  simp only [matchPortAt, h1, h2, h3, h4, hds.1, if_false]

theorem matchPortAt_some (pre s whole group : List Char)
    (h : matchPortAt pre s = some (whole, group)) :
    IsDecimal group ∧ whole = pre ++ "Port".data ++ group ++ "Host".data ∧
      ∃ rest, s = whole ++ rest := by
  simp only [matchPortAt] at h
  cases h1 : dropLit (pre ++ "Port".data) s with
  | none => simp [h1] at h
  | some r =>
    simp only [h1] at h
    cases h2 : dropLit "Host".data (r.dropWhile Char.isDigit) with
    | none => simp [h2] at h
    | some r2 =>
      simp only [h2] at h
      split at h
      · simp at h
      · rename_i hne
        simp only [Option.some.injEq, Prod.mk.injEq] at h
        obtain ⟨rfl, rfl⟩ := h
        rw [dropLit_eq_some_iff] at h1 h2
        refine ⟨⟨hne, fun c hc => (List.mem_takeWhile_imp hc)⟩, rfl, r2, ?_⟩
        rw [h1]
        conv_lhs => rw [← List.takeWhile_append_dropWhile Char.isDigit r, h2]
        simp

theorem findPortMatch_some (pre s whole group : List Char)
    (h : findPortMatch pre s = some (whole, group)) :
    IsDecimal group ∧ ∃ l r, s = l ++ (pre ++ "Port".data ++ group ++ "Host".data) ++ r := by
  induction s with
  | nil => simp [findPortMatch] at h
  | cons c cs ih =>
    simp only [findPortMatch] at h
    cases hm : matchPortAt pre (c :: cs) with
    | some r =>
      simp only [hm, Option.some.injEq] at h
      subst h
      obtain ⟨hd, hw, rest, hs⟩ := matchPortAt_some _ _ _ _ hm
      exact ⟨hd, [], rest, by rw [hs, hw]; simp⟩
    | none =>
      simp only [hm] at h
      obtain ⟨hd, l, r, hs⟩ := ih h
      exact ⟨hd, c :: l, r, by rw [hs]; simp⟩

theorem findPortMatch_of_matchPortAt (pre s : List Char) (r : List Char × List Char)
    (h : matchPortAt pre s = some r) : findPortMatch pre s = some r := by
  cases s with
  | nil =>
    have : matchPortAt pre [] = none := by cases hp : pre <;> simp [matchPortAt, dropLit]
    rw [this] at h
    simp at h
  | cons c cs => simp [findPortMatch, h]

theorem discoverPorts_loop (pre : String) (keys : List String) (acc : List Int) :
    keys.foldl
        (fun ports key =>
          let ms := FindStringSubmatch pre key
          if ms.length = 2 then ports ++ [(Atoi (ms.getD 1 "")).1] else ports)
        acc
      = acc ++ keys.filterMap (portOfKey pre) := by
  induction keys generalizing acc with
  | nil => simp
  | cons k ks ih =>
    simp only [List.foldl_cons, List.filterMap_cons, portOfKey]
    rw [ih]
    by_cases h : (FindStringSubmatch pre k).length = 2 <;> simp [h]

theorem discoverPorts_eq (upperName : String → String) (a : App) (s : Service) :
    discoverPorts upperName a s
      = (mapKeys a.Parameters).filterMap (portOfKey (upperName s.Name)) := by
  unfold discoverPorts
  rw [discoverPorts_loop]
  simp

theorem portOfKey_some (pre key : String) (n : Int) (h : portOfKey pre key = some n) :
    ∃ N, PortPatternOccurs pre key N ∧ n = (Atoi (String.mk N)).1 := by
  simp only [portOfKey, FindStringSubmatch] at h
  cases hm : findPortMatch pre.data key.data with
  | none => simp [hm] at h
  | some r =>
    obtain ⟨whole, group⟩ := r
    simp only [hm, List.length_cons, List.length_nil, if_true, List.getD_cons_succ,
      List.getD_cons_zero, Option.some.injEq] at h
    obtain ⟨hd, l, r, hs⟩ := findPortMatch_some _ _ _ _ hm
    exact ⟨group, ⟨hd, l, r, hs⟩, h.symm⟩

theorem portOfKey_exact (pre : String) (N : List Char) (hd : IsDecimal N) :
    portOfKey pre (pre ++ "Port" ++ String.mk N ++ "Host") = some (Atoi (String.mk N)).1 := by
  have hk : (pre ++ "Port" ++ String.mk N ++ "Host").data
      = pre.data ++ "Port".data ++ N ++ "Host".data ++ [] := by
    simp [String.data_append]
  have hm := findPortMatch_of_matchPortAt _ _ _ (matchPortAt_of_eq pre.data N [] hd)
  rw [← hk] at hm
  simp only [portOfKey, FindStringSubmatch, hm]
  simp

theorem Atoi_decimal (N : List Char) (hd : IsDecimal N) (hr : decimalValue N < 2 ^ 63) :
    Atoi (String.mk N) = ((decimalValue N : Int), none) := by
  rw [Atoi_ok_iff]
  refine ⟨⟨by omega, by omega⟩, N, hd, Or.inl ⟨Or.inl rfl, rfl⟩⟩

theorem processFormation_ok (upperName : String → String) (a : App) (s : Service)
    (count cpu memory : Int)
    (h : parseFormationParameters upperName a s.Name = Except.ok (count, cpu, memory)) :
    ∃ pf, processFormation upperName a s = Except.ok pf ∧
      pf.Ports = discoverPorts upperName a s := by
  simp [processFormation, h]

theorem processFormation_ports (upperName : String → String) (a : App) (s : Service)
    (pf : ProcessFormation) (h : processFormation upperName a s = Except.ok pf) :
    pf.Ports = discoverPorts upperName a s := by
  unfold processFormation at h
  split at h
  · simp at h
  · simp only [Except.ok.injEq] at h
    subst h
    rfl

/-- The patch of `FormationSave`, merged over the parameters, decodes to the
saved triple. -/
theorem parseFormationParameters_roundtrip (upperName : String → String) (a : App) (pf : ProcessFormation)
    (hc : IsInt64 pf.Count) (hu : IsInt64 pf.CPU) (hm : IsInt64 pf.Memory) :
    parseFormationParameters upperName
        { a with Parameters := mapMerge a.Parameters (formationPatch upperName a pf) } pf.Name
      = Except.ok (pf.Count, pf.CPU, pf.Memory) := by
  have lc := (Atoi_ok_iff _ _).1 (Atoi_fmtInt _ hc)
  have lu := (Atoi_ok_iff _ _).1 (Atoi_fmtInt _ hu)
  have lm := (Atoi_ok_iff _ _).1 (Atoi_fmtInt _ hm)
  rw [formationPatch_eq]
  by_cases hF : (mapGet a.Parameters (upperName pf.Name ++ "Formation")).isSome = true
  · simp only [hF, if_true, mapMerge, List.foldl_cons, List.foldl_nil, parseFormationParameters,
      mapGet_mapSet, Option.isSome_some]
    rw [parseFormationCombined_eq_ok]
    exact ⟨_, _, _, by simp [mapIndex, mapGet_mapSet], lc, lu, lm⟩
  · have h1 := append_right_ne (upperName pf.Name) "DesiredCount" "Formation" (by decide)
    have h2 := append_right_ne (upperName pf.Name) "Cpu" "Formation" (by decide)
    have h3 := append_right_ne (upperName pf.Name) "Memory" "Formation" (by decide)
    have h4 := append_right_ne (upperName pf.Name) "Memory" "DesiredCount" (by decide)
    have h5 := append_right_ne (upperName pf.Name) "Cpu" "DesiredCount" (by decide)
    have h6 := append_right_ne (upperName pf.Name) "Memory" "Cpu" (by decide)
    simp only [hF, if_false, mapMerge, List.foldl_cons, List.foldl_nil, parseFormationParameters,
      mapGet_mapSet, h1, h2, h3, Bool.false_eq_true]
    rw [parseFormationIndividual_eq_ok]
    simp only [mapGet_mapSet, h4, h5, h6, if_true, if_false]
    exact ⟨⟨_, rfl, lc⟩, Or.inr ⟨_, rfl, lu⟩, ⟨_, rfl, lm⟩⟩

/-! ## `processFormation`: ports, balancer, count -/

theorem nodup_filterMap_of_injOn {α β : Type} (f : α → Option β) (l : List α) (hl : l.Nodup)
    (hf : ∀ a ∈ l, ∀ a' ∈ l, ∀ b, f a = some b → f a' = some b → a = a') :
    (l.filterMap f).Nodup := by
  induction l with
  | nil => simp
  | cons x xs ih =>
    have hxs : xs.Nodup := (List.nodup_cons.1 hl).2
    have hx : x ∉ xs := (List.nodup_cons.1 hl).1
    have ih' := ih hxs (fun a ha a' ha' b h1 h2 =>
      hf a (List.mem_cons_of_mem _ ha) a' (List.mem_cons_of_mem _ ha') b h1 h2)
    cases hfx : f x with
    | none => simpa [List.filterMap_cons, hfx] using ih'
    | some b =>
      rw [List.filterMap_cons, hfx]
      refine List.nodup_cons.2 ⟨?_, ih'⟩
      intro hb
      obtain ⟨a', ha', hfa'⟩ := List.mem_filterMap.1 hb
      have := hf x (List.mem_cons_self _ _) a' (List.mem_cons_of_mem _ ha') b hfx hfa'
      exact hx (this ▸ ha')

theorem processFormation_fields (upperName : String → String) (a : App) (s : Service)
    (pf : ProcessFormation) (h : processFormation upperName a s = Except.ok pf) :
    parseFormationParameters upperName a s.Name = Except.ok (pf.Count, pf.CPU, pf.Memory) ∧
      pf.Name = s.Name ∧
      pf.Balancer = coalesceString
        [mapIndex a.Outputs ("Balancer" ++ upperName s.Name ++ "Host"),
          mapIndex a.Outputs "BalancerHost"] := by
  unfold processFormation at h
  split at h
  · simp at h
  · rename_i count cpu memory hp
    simp only [Except.ok.injEq] at h
    subst h
    exact ⟨hp, rfl, rfl⟩

theorem processFormation_error_iff (upperName : String → String) (a : App) (s : Service)
    (e : GoError) :
    processFormation upperName a s = Except.error e ↔
      parseFormationParameters upperName a s.Name = Except.error e := by
  unfold processFormation
  split
  · rename_i err hp
    rw [hp]
    simp
  · rename_i count cpu memory hp
    rw [hp]
    simp

/-! ## `FormationList` and `FormationGet` -/

theorem formationLoop_ok_iff (upperName : String → String) (a : App)
    (svs : List (String × Service)) (acc fs : List ProcessFormation) :
    formationLoop upperName a svs acc = Except.ok fs ↔
      ∃ rest, fs = acc ++ rest ∧
        rest.map Except.ok = svs.map (fun sv => processFormation upperName a sv.2) := by
  induction svs generalizing acc with
  | nil =>
    simp only [formationLoop, Except.ok.injEq, List.map_nil, List.map_eq_nil_iff]
    constructor
    · rintro rfl
      exact ⟨[], by simp, rfl⟩
    · rintro ⟨rest, h, rfl⟩
      simpa using h.symm
  | cons sv svs ih =>
    obtain ⟨name, s⟩ := sv
    simp only [formationLoop, List.map_cons]
    cases hp : processFormation upperName a s with
    | error e =>
      simp only [reduceCtorEq, false_iff, not_exists, not_and]
      intro rest _ h
      cases rest with
      | nil => simp at h
      | cons x xs => simp at h
    | ok pf =>
      simp only [ih]
      constructor
      · rintro ⟨rest, h1, h2⟩
        exact ⟨pf :: rest, by simp [h1], by simp [h2]⟩
      · rintro ⟨rest, h1, h2⟩
        cases rest with
        | nil => simp at h2
        | cons x xs =>
          simp only [List.map_cons, List.cons.injEq, Except.ok.injEq] at h2
          obtain ⟨rfl, h2⟩ := h2
          exact ⟨xs, by simp [h1], h2⟩

theorem formationLoop_error (upperName : String → String) (a : App)
    (svs : List (String × Service)) (acc : List ProcessFormation) (e : GoError)
    (h : formationLoop upperName a svs acc = Except.error e) :
    ∃ sv ∈ svs, processFormation upperName a sv.2 = Except.error e := by
  induction svs generalizing acc with
  | nil => simp [formationLoop] at h
  | cons sv svs ih =>
    obtain ⟨name, s⟩ := sv
    simp only [formationLoop] at h
    cases hp : processFormation upperName a s with
    | error e' =>
      simp only [hp, Except.error.injEq] at h
      subst h
      exact ⟨(name, s), List.mem_cons_self _ _, hp⟩
    | ok pf =>
      simp only [hp] at h
      obtain ⟨sv, hsv, hsv'⟩ := ih _ h
      exact ⟨sv, List.mem_cons_of_mem _ hsv, hsv'⟩

theorem FormationList_released (upperName : String → String) (p : AWSProvider)
    (ReleaseGet : String → String → Except GoError Release)
    (manifestLoad : String → Except GoError Manifest) (app : String)
    (a : App) (release : Release) (m : Manifest)
    (hA : p.AppGet app = Except.ok a) (hrel : a.Release ≠ "")
    (hR : ReleaseGet a.Name a.Release = Except.ok release)
    (hL : manifestLoad release.Manifest = Except.ok m) :
    FormationList upperName p ReleaseGet manifestLoad app =
      ([Call.AppGet app, Call.ReleaseGet a.Name a.Release, Call.manifestLoad release.Manifest],
        formationLoop upperName a m.Services []) := by
  simp [FormationList, hA, hrel, hR, hL]

theorem FormationGet_released (upperName : String → String) (p : AWSProvider)
    (ReleaseGet : String → String → Except GoError Release)
    (manifestLoad : String → Except GoError Manifest) (app process : String)
    (a : App) (release : Release) (m : Manifest)
    (hA : p.AppGet app = Except.ok a) (hrel : a.Release ≠ "")
    (hR : ReleaseGet a.Name a.Release = Except.ok release)
    (hL : manifestLoad release.Manifest = Except.ok m) :
    FormationGet upperName p ReleaseGet manifestLoad app process =
      ([Call.AppGet app, Call.ReleaseGet a.Name a.Release, Call.manifestLoad release.Manifest],
        match servicesGet m.Services process with
        | none => Except.error (GoError.errorf ("no such process: " ++ process))
        | some s => processFormation upperName a s) := by
  simp [FormationGet, hA, hrel, hR, hL]

theorem processFormation_ok_iff_parse (upperName : String → String) (a : App) (s : Service) :
    (∃ pf, processFormation upperName a s = Except.ok pf) ↔
      ∃ t, parseFormationParameters upperName a s.Name = Except.ok t := by
  constructor
  · rintro ⟨pf, h⟩
    exact ⟨_, (processFormation_fields upperName a s pf h).1⟩
  · rintro ⟨⟨count, cpu, memory⟩, h⟩
    obtain ⟨pf, hpf, _⟩ := processFormation_ok upperName a s count cpu memory h
    exact ⟨pf, hpf⟩

theorem formationLoop_ok_of_all (upperName : String → String) (a : App)
    (svs : List (String × Service))
    (hall : ∀ sv ∈ svs, ∃ t, parseFormationParameters upperName a sv.2.Name = Except.ok t) :
    ∃ fs, formationLoop upperName a svs [] = Except.ok fs := by
  cases h : formationLoop upperName a svs [] with
  | ok fs => exact ⟨fs, rfl⟩
  | error e =>
    obtain ⟨sv, hsv, he⟩ := formationLoop_error upperName a svs [] e h
    obtain ⟨t, ht⟩ := hall sv hsv
    rw [processFormation_error_iff, ht] at he
    simp at he

theorem formation_names (upperName : String → String) (a : App)
    (svs : List (String × Service)) (fs : List ProcessFormation)
    (h : fs.map Except.ok = svs.map (fun sv => processFormation upperName a sv.2)) :
    fs.map (fun pf => pf.Name) = svs.map (fun sv => sv.2.Name) := by
  induction svs generalizing fs with
  | nil =>
    simp only [List.map_nil, List.map_eq_nil_iff] at h
    simp [h]
  | cons sv svs ih =>
    cases fs with
    | nil => simp at h
    | cons pf fs =>
      simp only [List.map_cons, List.cons.injEq] at h ⊢
      exact ⟨(processFormation_fields upperName a sv.2 pf h.1.symm).2.1, ih fs h.2⟩

theorem servicesGet_eq_none_iff (svs : List (String × Service)) (process : String) :
    servicesGet svs process = none ↔ process ∉ svs.map Prod.fst := by
  induction svs with
  | nil => simp [servicesGet]
  | cons sv svs ih =>
    obtain ⟨name, s⟩ := sv
    by_cases h : name = process
    · simp [servicesGet, h]
    · simp [servicesGet, h, ih, Ne.symm h]

/-! ## Decode errors -/

theorem notNumericError_eq (process field : String) :
    notNumericError process field = GoError.errorf (process ++ (" " ++ field ++ " not numeric")) := by
  unfold notNumericError
  congr 1
  apply String.ext
  simp [String.data_append]

theorem Atoi_of_not_literal (s : String) (h : ¬ IsIntLiteral s) :
    ∃ n e, Atoi s = (n, some e) := by
  rcases Atoi_cases s with ⟨n, _, hl⟩ | ⟨n, e, he, _⟩
  · exact absurd ⟨n, hl⟩ h
  · exact ⟨n, e, he⟩

theorem Atoi_of_literal (s : String) (h : IsIntLiteral s) : ∃ n, Atoi s = (n, none) := by
  obtain ⟨n, hn⟩ := h
  exact ⟨n, (Atoi_ok_iff s n).2 hn⟩

theorem parseFormationCombined_parts (upperName : String → String) (app : App)
    (process : String) (x y z : String)
    (h : SplitN (mapIndex app.Parameters (upperName process ++ "Formation")) ',' 3 = [x, y, z]) :
    (¬ IsIntLiteral x →
      parseFormationCombined upperName app process
        = Except.error (notNumericError process "count")) ∧
    (IsIntLiteral x → ¬ IsIntLiteral y →
      parseFormationCombined upperName app process
        = Except.error (notNumericError process "cpu")) ∧
    (IsIntLiteral x → IsIntLiteral y → ¬ IsIntLiteral z →
      parseFormationCombined upperName app process
        = Except.error (notNumericError process "memory")) := by
  simp only [notNumericError_eq]
  refine ⟨fun h1 => ?_, fun h1 h2 => ?_, fun h1 h2 h3 => ?_⟩
  · obtain ⟨n, e, he⟩ := Atoi_of_not_literal x h1
    simp only [parseFormationCombined, h, List.length_cons, List.length_nil, List.getD_cons_zero,
      he]
    rfl
  · obtain ⟨n1, he1⟩ := Atoi_of_literal x h1
    obtain ⟨n, e, he⟩ := Atoi_of_not_literal y h2
    simp only [parseFormationCombined, h, List.length_cons, List.length_nil, List.getD_cons_zero,
      List.getD_cons_succ, he1, he]
    rfl
  · obtain ⟨n1, he1⟩ := Atoi_of_literal x h1
    obtain ⟨n2, he2⟩ := Atoi_of_literal y h2
    obtain ⟨n, e, he⟩ := Atoi_of_not_literal z h3
    simp only [parseFormationCombined, h, List.length_cons, List.length_nil, List.getD_cons_zero,
      List.getD_cons_succ, he1, he2, he]
    rfl

theorem parseFormationIndividual_errors (upperName : String → String) (app : App)
    (process : String) :
    (¬ IsIntLiteral (mapIndex app.Parameters (upperName process ++ "DesiredCount")) →
      parseFormationIndividual upperName app process
        = Except.error (notNumericError process "count")) ∧
    (IsIntLiteral (mapIndex app.Parameters (upperName process ++ "DesiredCount")) →
      (∃ v, mapGet app.Parameters (upperName process ++ "Cpu") = some v ∧ ¬ IsIntLiteral v) →
      parseFormationIndividual upperName app process
        = Except.error (notNumericError process "cpu")) ∧
    (IsIntLiteral (mapIndex app.Parameters (upperName process ++ "DesiredCount")) →
      (mapGet app.Parameters (upperName process ++ "Cpu") = none ∨
        ∃ v, mapGet app.Parameters (upperName process ++ "Cpu") = some v ∧ IsIntLiteral v) →
      ¬ IsIntLiteral (mapIndex app.Parameters (upperName process ++ "Memory")) →
      parseFormationIndividual upperName app process
        = Except.error (notNumericError process "memory")) := by
  simp only [notNumericError_eq]
  refine ⟨fun h1 => ?_, fun h1 h2 => ?_, fun h1 h2 h3 => ?_⟩
  · obtain ⟨n, e, he⟩ := Atoi_of_not_literal _ h1
    simp only [parseFormationIndividual, he]
    rfl
  · obtain ⟨n1, he1⟩ := Atoi_of_literal _ h1
    obtain ⟨v, hv, hnl⟩ := h2
    obtain ⟨n, e, he⟩ := Atoi_of_not_literal v hnl
    simp only [parseFormationIndividual, he1, hv, parseCpuParameter, he]
    rfl
  · obtain ⟨n1, he1⟩ := Atoi_of_literal _ h1
    obtain ⟨n, e, he⟩ := Atoi_of_not_literal _ h3
    rcases h2 with h2 | ⟨v, hv, hl⟩
    · simp only [parseFormationIndividual, he1, h2, parseCpuParameter, he]
      rfl
    · obtain ⟨n2, he2⟩ := Atoi_of_literal v hl
      simp only [parseFormationIndividual, he1, hv, parseCpuParameter, he2, he]
      rfl

/-! ## Field count of the combined value -/

theorem cutAt_eq_none_iff (sep : Char) (s : List Char) : cutAt sep s = none ↔ sep ∉ s := by
  induction s with
  | nil => simp [cutAt]
  | cons c cs ih =>
    by_cases hc : c = sep
    · simp [cutAt, hc]
    · cases hr : cutAt sep cs with
      | none =>
        have := ih.1 hr
        simp [cutAt, hc, hr, this, Ne.symm hc]
      | some r =>
        have : sep ∈ cs := by
          by_contra hn
          rw [ih.2 hn] at hr
          simp at hr
        simp [cutAt, hc, hr, this]

theorem count_of_cutAt (s a b : List Char) (h : cutAt ',' s = some (a, b)) :
    s.count ',' = b.count ',' + 1 := by
  obtain ⟨hs, ha⟩ := cutAt_some _ _ _ _ h
  rw [hs, List.count_append, List.count_cons_self, List.count_eq_zero.2 ha]
  omega

theorem splitNChars_three_cases (s : List Char) :
    (s.count ',' < 2 ∧ (splitNChars ',' 3 s).length ≠ 3) ∨
      ∃ x y z, splitNChars ',' 3 s = [x, y, z] ∧ s.count ',' = z.count ',' + 2 := by
  simp only [splitNChars]
  cases h1 : cutAt ',' s with
  | none =>
    have := List.count_eq_zero.2 ((cutAt_eq_none_iff _ _).1 h1)
    exact Or.inl ⟨by omega, by simp⟩
  | some r1 =>
    obtain ⟨a, b⟩ := r1
    have hc1 := count_of_cutAt s a b h1
    cases h2 : cutAt ',' b with
    | none =>
      have := List.count_eq_zero.2 ((cutAt_eq_none_iff _ _).1 h2)
      exact Or.inl ⟨by omega, by simp [h2]⟩
    | some r2 =>
      obtain ⟨a2, b2⟩ := r2
      have hc2 := count_of_cutAt b a2 b2 h2
      exact Or.inr ⟨a, a2, b2, by simp [h2], by omega⟩

theorem SplitN_three_cases (v : String) :
    (v.data.count ',' < 2 ∧ (SplitN v ',' 3).length ≠ 3) ∨
      ∃ x y z, SplitN v ',' 3 = [x, y, z] ∧ v.data.count ',' = z.data.count ',' + 2 := by
  rcases splitNChars_three_cases v.data with ⟨h1, h2⟩ | ⟨x, y, z, h1, h2⟩
  · exact Or.inl ⟨h1, by simpa [SplitN] using h2⟩
  · exact Or.inr ⟨String.mk x, String.mk y, String.mk z, by simp [SplitN, h1], h2⟩

theorem not_literal_of_comma (z : String) (h : 0 < z.data.count ',') : ¬ IsIntLiteral z := by
  rintro ⟨n, hn⟩
  exact IntLiteralChars_no_comma _ _ hn (List.count_pos_iff.1 h)

theorem parseFormationCombined_three (upperName : String → String) (app : App)
    (process : String) (x y z : String)
    (h : SplitN (mapIndex app.Parameters (upperName process ++ "Formation")) ',' 3 = [x, y, z]) :
    parseFormationCombined upperName app process ≠ Except.error (formatError process) := by
  have hne1 := append_right_ne process " formation settings not in Count,Cpu,Memory format"
    " count not numeric" (by decide)
  have hne2 := append_right_ne process " formation settings not in Count,Cpu,Memory format"
    " cpu not numeric" (by decide)
  have hne3 := append_right_ne process " formation settings not in Count,Cpu,Memory format"
    " memory not numeric" (by decide)
  simp only [parseFormationCombined, h, List.length_cons, List.length_nil, List.getD_cons_zero,
    List.getD_cons_succ, formatError]
  rcases Atoi x with ⟨n1, _ | e1⟩ <;> rcases Atoi y with ⟨n2, _ | e2⟩ <;>
    rcases Atoi z with ⟨n3, _ | e3⟩ <;>
    simp [Ne.symm hne1, Ne.symm hne2, Ne.symm hne3]

theorem parseFormationCombined_short (upperName : String → String) (app : App)
    (process : String)
    (h : (SplitN (mapIndex app.Parameters (upperName process ++ "Formation")) ',' 3).length ≠ 3) :
    parseFormationCombined upperName app process = Except.error (formatError process) := by
  simp [parseFormationCombined, h, formatError]

theorem not_literal_of_error (s : String) (h : (Atoi s).2.isSome = true) : ¬ IsIntLiteral s := by
  rintro ⟨n, hn⟩
  rw [(Atoi_ok_iff s n).2 hn] at h
  simp at h

theorem literal_of_no_error (s : String) (h : (Atoi s).2 = none) : IsIntLiteral s :=
  ⟨(Atoi s).1, (Atoi_ok_iff s _).1 (Prod.ext rfl h)⟩

/-! ## The port loop for an arbitrary expression -/

theorem portLoop_acc (find : String → List String) (keys : List String) (acc : List Int) :
    keys.foldl
        (fun ports key =>
          let ms := find key
          if ms.length = 2 then ports ++ [(Atoi (ms.getD 1 "")).1] else ports)
        acc
      = acc ++ keys.filterMap (portWith find) := by
  induction keys generalizing acc with
  | nil => simp
  | cons k ks ih =>
    simp only [List.foldl_cons, List.filterMap_cons, portWith]
    rw [ih]
    by_cases h : (find k).length = 2 <;> simp [h]

theorem portLoop_eq_filterMap (find : String → List String) (keys : List String) :
    portLoop find keys = keys.filterMap (portWith find) := by
  unfold portLoop
  rw [portLoop_acc]
  simp

theorem discoverPorts_eq_portLoop (upperName : String → String) (a : App) (s : Service) :
    discoverPorts upperName a s
      = portLoop (FindStringSubmatch (upperName s.Name)) (mapKeys a.Parameters) := rfl

theorem portOfKey_eq_portWith (pre : String) :
    portOfKey pre = portWith (FindStringSubmatch pre) := rfl

theorem count_filterMap_eq_countP {α : Type} (f : α → Option Int) (l : List α) (n : Int) :
    (l.filterMap f).count n = l.countP (fun k => decide (f k = some n)) := by
  induction l with
  | nil => simp
  | cons x xs ih =>
    cases hfx : f x with
    | none => simp [List.filterMap_cons, hfx, List.countP_cons, ih]
    | some m =>
      by_cases hm : m = n
      · subst hm
        simp [List.filterMap_cons, hfx, List.countP_cons, ih]
      · simp [List.filterMap_cons, hfx, List.countP_cons, ih, hm, List.count_cons]

theorem two_le_countP {α : Type} (p : α → Bool) (l : List α) (k k' : α)
    (hk : k ∈ l) (hk' : k' ∈ l) (hne : k ≠ k') (hp : p k = true) (hp' : p k' = true) :
    2 ≤ l.countP p := by
  rw [List.countP_eq_length_filter]
  have h1 : k ∈ l.filter p := List.mem_filter.2 ⟨hk, hp⟩
  have h2 : k' ∈ l.filter p := List.mem_filter.2 ⟨hk', hp'⟩
  match hl : l.filter p, h1, h2 with
  | [], h1, _ => simp at h1
  | [x], h1, h2 =>
    simp only [List.mem_singleton] at h1 h2
    exact absurd (h1.trans h2.symm) hne
  | _ :: _ :: _, _, _ => simp

/-! ## The claims -/

/-- C1. Round trip through the encoding of Save: merging the patch that
`FormationSave` builds for `(count, cpu, memory)` over the parameters and
decoding the same process returns exactly `(count, cpu, memory)`, under the
combined scheme and under the individual scheme alike. -/
theorem save_parse_roundtrip (upperName : String → String) (a : App) (pf : ProcessFormation)
    (hc : IsInt64 pf.Count) (hu : IsInt64 pf.CPU) (hm : IsInt64 pf.Memory) :
    parseFormationParameters upperName
        { a with Parameters := mapMerge a.Parameters (formationPatch upperName a pf) } pf.Name
      = Except.ok (pf.Count, pf.CPU, pf.Memory) :=
  parseFormationParameters_roundtrip upperName a pf hc hu hm

/-- C1, at concrete inputs: the triple `(2, 1, 512)` for process `web`, over
parameters of the combined scheme and over parameters of the individual scheme. -/
theorem save_parse_roundtrip_witness :
    (IsInt64 2 ∧ IsInt64 1 ∧ IsInt64 512) ∧
    parseFormationParameters upperNameSpec
        { appWith [("WebFormation", "1,0,256")] with
          Parameters := mapMerge [("WebFormation", "1,0,256")]
            (formationPatch upperNameSpec (appWith [("WebFormation", "1,0,256")])
              (formationOf "web" 2 1 512)) } "web"
      = Except.ok (2, 1, 512) ∧
    parseFormationParameters upperNameSpec
        { appWith [("WebDesiredCount", "1"), ("WebMemory", "256")] with
          Parameters := mapMerge [("WebDesiredCount", "1"), ("WebMemory", "256")]
            (formationPatch upperNameSpec (appWith [("WebDesiredCount", "1"), ("WebMemory", "256")])
              (formationOf "web" 2 1 512)) } "web"
      = Except.ok (2, 1, 512) :=
  ⟨by decide,
    save_parse_roundtrip upperNameSpec (appWith [("WebFormation", "1,0,256")])
      (formationOf "web" 2 1 512) (by decide) (by decide) (by decide),
    save_parse_roundtrip upperNameSpec (appWith [("WebDesiredCount", "1"), ("WebMemory", "256")])
      (formationOf "web" 2 1 512) (by decide) (by decide) (by decide)⟩

/-- C2. Validator acceptance is exactly the range rules: once the app and the
capacity are resolved, `FormationSave` returns none of the four `requested ...`
errors of its checks if and only if `Count >= -1`, `0 <= CPU <= InstanceCPU` and
`Memory <= InstanceMemory`; there is no lower bound on `Memory`. -/
theorem FormationSave_validation_iff (upperName : String → String) (stackName : App → String)
    (p : AWSProvider) (app : String) (pf : ProcessFormation) (a : App) (capacity : Capacity)
    (hA : p.AppGet app = Except.ok a) (hC : p.CapacityGet = Except.ok capacity) :
    (∀ e ∈ [countError pf, cpuTooLargeError pf capacity, cpuNegativeError pf,
        memoryTooLargeError pf capacity],
      FormationSave upperName stackName p app pf ≠ ([], some e)) ↔
      (-1 ≤ pf.Count ∧ 0 ≤ pf.CPU ∧ pf.CPU ≤ capacity.InstanceCPU ∧
        pf.Memory ≤ capacity.InstanceMemory) := by
  constructor
  · intro h
    cases hv : validateFormation pf capacity with
    | none => exact (validateFormation_eq_none_iff pf capacity).1 hv
    | some e =>
      exact absurd (FormationSave_rejected upperName stackName p app pf a capacity e hA hC hv)
        (h e (validateFormation_mem pf capacity e hv))
  · intro h e _
    rw [FormationSave_accepted upperName stackName p app pf a capacity hA hC
      ((validateFormation_eq_none_iff pf capacity).2 h)]
    simp

/-- C2, at a concrete input: `Count = -1`, `CPU` equal to `InstanceCPU` and a
negative `Memory` pass the checks, so none of the four errors is returned. -/
theorem FormationSave_validation_iff_witness :
    FormationSave upperNameSpec App.Name (providerWith (appWith []) ⟨1024, 2048⟩ none) "app"
        (formationOf "web" (-1) 1024 (-5))
      ≠ ([], some (countError (formationOf "web" (-1) 1024 (-5)))) ∧
    FormationSave upperNameSpec App.Name (providerWith (appWith []) ⟨1024, 2048⟩ none) "app"
        (formationOf "web" (-1) 1024 (-5))
      ≠ ([], some (cpuTooLargeError (formationOf "web" (-1) 1024 (-5)) ⟨1024, 2048⟩)) ∧
    FormationSave upperNameSpec App.Name (providerWith (appWith []) ⟨1024, 2048⟩ none) "app"
        (formationOf "web" (-1) 1024 (-5))
      ≠ ([], some (cpuNegativeError (formationOf "web" (-1) 1024 (-5)))) ∧
    FormationSave upperNameSpec App.Name (providerWith (appWith []) ⟨1024, 2048⟩ none) "app"
        (formationOf "web" (-1) 1024 (-5))
      ≠ ([], some (memoryTooLargeError (formationOf "web" (-1) 1024 (-5)) ⟨1024, 2048⟩)) :=
  (fun h => ⟨h _ (by simp), h _ (by simp), h _ (by simp), h _ (by simp)⟩)
    ((FormationSave_validation_iff upperNameSpec App.Name
      (providerWith (appWith []) ⟨1024, 2048⟩ none) "app" (formationOf "web" (-1) 1024 (-5))
      (appWith []) ⟨1024, 2048⟩ rfl rfl).2 (by decide))

/-- C3. Validation rules are checked in the order count, cpu-too-large,
cpu-negative, memory-too-large, and the first failing rule decides the error
`FormationSave` returns, whatever later rules are violated as well. -/
theorem FormationSave_first_failure (upperName : String → String) (stackName : App → String)
    (p : AWSProvider) (app : String) (pf : ProcessFormation) (a : App) (capacity : Capacity)
    (hA : p.AppGet app = Except.ok a) (hC : p.CapacityGet = Except.ok capacity) :
    (pf.Count < -1 →
      FormationSave upperName stackName p app pf = ([], some (countError pf))) ∧
    (-1 ≤ pf.Count → capacity.InstanceCPU < pf.CPU →
      FormationSave upperName stackName p app pf = ([], some (cpuTooLargeError pf capacity))) ∧
    (-1 ≤ pf.Count → pf.CPU ≤ capacity.InstanceCPU → pf.CPU < 0 →
      FormationSave upperName stackName p app pf = ([], some (cpuNegativeError pf))) ∧
    (-1 ≤ pf.Count → pf.CPU ≤ capacity.InstanceCPU → 0 ≤ pf.CPU →
      capacity.InstanceMemory < pf.Memory →
      FormationSave upperName stackName p app pf
        = ([], some (memoryTooLargeError pf capacity))) := by
  refine ⟨fun h1 => ?_, fun h1 h2 => ?_, fun h1 h2 h3 => ?_, fun h1 h2 h3 h4 => ?_⟩ <;>
    apply FormationSave_rejected upperName stackName p app pf a capacity _ hA hC <;>
    unfold validateFormation
  · rw [if_pos h1]
  · rw [if_neg (by omega), if_pos (by omega)]
  · rw [if_neg (by omega), if_neg (by omega), if_pos h3]
  · rw [if_neg (by omega), if_neg (by omega), if_neg (by omega), if_pos (by omega)]

/-- C3, at concrete inputs: `Count = -2` with `CPU` above the instance size gives
the count error; `CPU = -1` with `Memory` above the instance size gives the
cpu-negative error. -/
theorem FormationSave_first_failure_witness :
    FormationSave upperNameSpec App.Name (providerWith (appWith []) ⟨1024, 2048⟩ none) "app"
        (formationOf "web" (-2) 5000 256)
      = ([], some (GoError.errorf "requested count -2 must be -1 or greater")) ∧
    FormationSave upperNameSpec App.Name (providerWith (appWith []) ⟨1024, 2048⟩ none) "app"
        (formationOf "web" 1 (-1) 9999)
      = ([], some (GoError.errorf "requested cpu -1 must be 0 or greater")) :=
  ⟨(FormationSave_first_failure upperNameSpec App.Name
      (providerWith (appWith []) ⟨1024, 2048⟩ none) "app" (formationOf "web" (-2) 5000 256)
      (appWith []) ⟨1024, 2048⟩ rfl rfl).1 (by decide),
    (FormationSave_first_failure upperNameSpec App.Name
      (providerWith (appWith []) ⟨1024, 2048⟩ none) "app" (formationOf "web" 1 (-1) 9999)
      (appWith []) ⟨1024, 2048⟩ rfl rfl).2.2.1 (by decide) (by decide) (by decide)⟩

/-- C4. A rejected Save writes nothing: when the requested formation violates a
range rule, `FormationSave` returns one of the four validation errors and its
effect trace is empty: no scale event, no stack update. -/
theorem FormationSave_rejected_writes_nothing (upperName : String → String)
    (stackName : App → String) (p : AWSProvider) (app : String) (pf : ProcessFormation)
    (a : App) (capacity : Capacity)
    (hA : p.AppGet app = Except.ok a) (hC : p.CapacityGet = Except.ok capacity)
    (hrej : ¬ RangeRules pf capacity) :
    (FormationSave upperName stackName p app pf).1 = [] ∧
      ∃ e ∈ [countError pf, cpuTooLargeError pf capacity, cpuNegativeError pf,
          memoryTooLargeError pf capacity],
        (FormationSave upperName stackName p app pf).2 = some e := by
  cases hv : validateFormation pf capacity with
  | none => exact absurd ((validateFormation_eq_none_iff pf capacity).1 hv) hrej
  | some e =>
    rw [FormationSave_rejected upperName stackName p app pf a capacity e hA hC hv]
    exact ⟨rfl, e, validateFormation_mem pf capacity e hv, rfl⟩

/-- C4, at the input `Count = -2`. -/
theorem FormationSave_rejected_writes_nothing_witness :
    ¬ RangeRules (formationOf "web" (-2) 128 256) ⟨1024, 2048⟩ ∧
    (FormationSave upperNameSpec App.Name (providerWith (appWith []) ⟨1024, 2048⟩ none) "app"
        (formationOf "web" (-2) 128 256)).1 = [] :=
  ⟨by unfold RangeRules; decide,
    (FormationSave_rejected_writes_nothing upperNameSpec App.Name
      (providerWith (appWith []) ⟨1024, 2048⟩ none) "app" (formationOf "web" (-2) 128 256)
      (appWith []) ⟨1024, 2048⟩ rfl rfl (by unfold RangeRules; decide)).1⟩

/-- C5. Classification of the updater's error, after validation passed: a
`ValidationError` whose text contains `No updates are to be performed` becomes
the no-op error naming the app; otherwise a `ValidationError` whose text
contains `can not be updated` becomes the already-updating error naming the
app; in every other case the result of the update is returned unchanged. -/
theorem FormationSave_update_error (upperName : String → String) (stackName : App → String)
    (p : AWSProvider) (app : String) (pf : ProcessFormation) (a : App) (capacity : Capacity)
    (err : Option GoError)
    (hA : p.AppGet app = Except.ok a) (hC : p.CapacityGet = Except.ok capacity)
    (hv : RangeRules pf capacity)
    (hU : p.updateStack (stackName a) "" (formationPatch upperName a pf) = err) :
    (∀ text, err = some (GoError.aws "ValidationError" text) →
        Occurs "No updates are to be performed" text →
        (FormationSave upperName stackName p app pf).2
          = some (GoError.errorf ("no updates are to be performed: " ++ app))) ∧
    (∀ text, err = some (GoError.aws "ValidationError" text) →
        ¬ Occurs "No updates are to be performed" text → Occurs "can not be updated" text →
        (FormationSave upperName stackName p app pf).2
          = some (GoError.errorf ("app is already updating: " ++ app))) ∧
    ((∀ text, err = some (GoError.aws "ValidationError" text) →
        ¬ Occurs "No updates are to be performed" text ∧ ¬ Occurs "can not be updated" text) →
      (FormationSave upperName stackName p app pf).2 = err) := by
  rw [FormationSave_accepted upperName stackName p app pf a capacity hA hC
    ((validateFormation_eq_none_iff pf capacity).2 hv), hU]
  refine ⟨?_, ?_, ?_⟩
  · rintro text rfl h
    simp [classifyUpdateError, (Contains_iff _ _).2 h]
  · rintro text rfl h1 h2
    have h1' : Contains text "No updates are to be performed" = false := by
      rw [← Bool.not_eq_true, Contains_iff]
      exact h1
    simp [classifyUpdateError, h1', (Contains_iff _ _).2 h2]
  · intro h
    match err, h with
    | none, _ => rfl
    | some (GoError.errorf _), _ => rfl
    | some (GoError.aws code text), h =>
      simp only [classifyUpdateError]
      by_cases hc : code = "ValidationError"
      · subst hc
        obtain ⟨h1, h2⟩ := h text rfl
        have h1' : Contains text "No updates are to be performed" = false := by
          rw [← Bool.not_eq_true, Contains_iff]
          exact h1
        have h2' : Contains text "can not be updated" = false := by
          rw [← Bool.not_eq_true, Contains_iff]
          exact h2
        simp [h1', h2']
      · simp [hc]

/-- C5, at a concrete input: the update reports a `ValidationError` whose text
contains `No updates are to be performed`. -/
theorem FormationSave_update_error_witness :
    RangeRules (formationOf "web" 2 1 512) ⟨1024, 2048⟩ ∧
    (FormationSave upperNameSpec App.Name
        (providerWith (appWith []) ⟨1024, 2048⟩
          (some (GoError.aws "ValidationError" "ValidationError: No updates are to be performed.")))
        "app" (formationOf "web" 2 1 512)).2
      = some (GoError.errorf "no updates are to be performed: app") :=
  ⟨by unfold RangeRules; decide,
    (FormationSave_update_error upperNameSpec App.Name
      (providerWith (appWith []) ⟨1024, 2048⟩
        (some (GoError.aws "ValidationError" "ValidationError: No updates are to be performed.")))
      "app" (formationOf "web" 2 1 512) (appWith []) ⟨1024, 2048⟩ _ rfl rfl
      (by unfold RangeRules; decide) rfl).1 _ rfl ⟨"ValidationError: ", ".", by decide⟩⟩

/-- C6. The patch Save submits is exact and keeps the stored encoding: for a
validated formation the stack update receives the single entry
`<Prefix>Formation -> <count>,<cpu>,<memory>` when the parameters contain
`<Prefix>Formation`, and otherwise the three entries `<Prefix>DesiredCount`,
`<Prefix>Cpu`, `<Prefix>Memory` with the decimal text of each field; the patch
never holds keys of both schemes. -/
theorem FormationSave_patch_exact (upperName : String → String) (stackName : App → String)
    (p : AWSProvider) (app : String) (pf : ProcessFormation) (a : App) (capacity : Capacity)
    (hA : p.AppGet app = Except.ok a) (hC : p.CapacityGet = Except.ok capacity)
    (hv : RangeRules pf capacity) :
    (FormationSave upperName stackName p app pf).1 =
      [Effect.EventSend (scaleEvent a),
        Effect.updateStack (stackName a) ""
          (if (mapGet a.Parameters (upperName pf.Name ++ "Formation")).isSome then
            [(upperName pf.Name ++ "Formation",
              fmtInt pf.Count ++ "," ++ fmtInt pf.CPU ++ "," ++ fmtInt pf.Memory)]
          else
            [(upperName pf.Name ++ "DesiredCount", fmtInt pf.Count),
              (upperName pf.Name ++ "Cpu", fmtInt pf.CPU),
              (upperName pf.Name ++ "Memory", fmtInt pf.Memory)])] ∧
    ¬ (upperName pf.Name ++ "Formation" ∈ mapKeys (formationPatch upperName a pf) ∧
      (upperName pf.Name ++ "DesiredCount" ∈ mapKeys (formationPatch upperName a pf) ∨
        upperName pf.Name ++ "Cpu" ∈ mapKeys (formationPatch upperName a pf) ∨
        upperName pf.Name ++ "Memory" ∈ mapKeys (formationPatch upperName a pf))) := by
  have h1 := append_right_ne (upperName pf.Name) "DesiredCount" "Formation" (by decide)
  have h2 := append_right_ne (upperName pf.Name) "Cpu" "Formation" (by decide)
  have h3 := append_right_ne (upperName pf.Name) "Memory" "Formation" (by decide)
  rw [FormationSave_accepted upperName stackName p app pf a capacity hA hC
    ((validateFormation_eq_none_iff pf capacity).2 hv), formationPatch_eq]
  refine ⟨rfl, ?_⟩
  split
  · simp [mapKeys, h1, h2, h3]
  · simp [mapKeys, Ne.symm h1, Ne.symm h2, Ne.symm h3]

/-- C6, at concrete inputs: the triple `(2, 0, 512)` for process `web`, over
parameters of the combined scheme and over parameters of the individual scheme. -/
theorem FormationSave_patch_exact_witness :
    RangeRules (formationOf "web" 2 0 512) ⟨1024, 2048⟩ ∧
    (FormationSave upperNameSpec App.Name
        (providerWith (appWith [("WebFormation", "1,0,256")]) ⟨1024, 2048⟩ none) "app"
        (formationOf "web" 2 0 512)).1
      = [Effect.EventSend (scaleEvent (appWith [("WebFormation", "1,0,256")])),
          Effect.updateStack "app" "" [("WebFormation", "2,0,512")]] ∧
    (FormationSave upperNameSpec App.Name
        (providerWith (appWith [("WebDesiredCount", "1")]) ⟨1024, 2048⟩ none) "app"
        (formationOf "web" 2 0 512)).1
      = [Effect.EventSend (scaleEvent (appWith [("WebDesiredCount", "1")])),
          Effect.updateStack "app" ""
            [("WebDesiredCount", "2"), ("WebCpu", "0"), ("WebMemory", "512")]] :=
  ⟨by unfold RangeRules; decide,
    (FormationSave_patch_exact upperNameSpec App.Name
      (providerWith (appWith [("WebFormation", "1,0,256")]) ⟨1024, 2048⟩ none) "app"
      (formationOf "web" 2 0 512) (appWith [("WebFormation", "1,0,256")]) ⟨1024, 2048⟩ rfl rfl
      (by unfold RangeRules; decide)).1,
    (FormationSave_patch_exact upperNameSpec App.Name
      (providerWith (appWith [("WebDesiredCount", "1")]) ⟨1024, 2048⟩ none) "app"
      (formationOf "web" 2 0 512) (appWith [("WebDesiredCount", "1")]) ⟨1024, 2048⟩ rfl rfl
      (by unfold RangeRules; decide)).1⟩

/-- C7. Combined decode succeeds exactly on well-formed values: it returns
`(count, cpu, memory)` if and only if the value stored under `<Prefix>Formation`
is three comma-separated fields that are valid integer literals with these
values.  In particular `2,1,512` decodes to `(2, 1, 512)`, and `2,1` and
`2,1,512,9` fail. -/
theorem parseFormationCombined_ok_iff :
    (∀ (upperName : String → String) (app : App) (process : String) (count cpu memory : Int),
      parseFormationCombined upperName app process = Except.ok (count, cpu, memory) ↔
        ∃ a b c : String,
          mapIndex app.Parameters (upperName process ++ "Formation")
              = a ++ "," ++ b ++ "," ++ c ∧
            IntLiteral a count ∧ IntLiteral b cpu ∧ IntLiteral c memory) ∧
    parseFormationCombined upperNameSpec (appWith [("WebFormation", "2,1,512")]) "web"
      = Except.ok (2, 1, 512) ∧
    parseFormationCombined upperNameSpec (appWith [("WebFormation", "2,1")]) "web"
      = Except.error (GoError.errorf "web formation settings not in Count,Cpu,Memory format") ∧
    parseFormationCombined upperNameSpec (appWith [("WebFormation", "2,1,512,9")]) "web"
      = Except.error (GoError.errorf "web memory not numeric") :=
  ⟨parseFormationCombined_eq_ok, rfl, rfl, rfl⟩

/-- C8. Individual decode with optional Cpu: it returns `(count, cpu, memory)` if
and only if `<Prefix>DesiredCount` and `<Prefix>Memory` are present and hold
valid integer literals of values `count` and `memory`, and `<Prefix>Cpu` is
either absent, with `cpu = 0`, or present with a valid literal of value `cpu`.
A missing `Cpu` key is no error; a missing `DesiredCount` or `Memory` key is. -/
theorem parseFormationIndividual_ok_iff :
    (∀ (upperName : String → String) (app : App) (process : String) (count cpu memory : Int),
      parseFormationIndividual upperName app process = Except.ok (count, cpu, memory) ↔
        (∃ v, mapGet app.Parameters (upperName process ++ "DesiredCount") = some v ∧
          IntLiteral v count) ∧
        ((mapGet app.Parameters (upperName process ++ "Cpu") = none ∧ cpu = 0) ∨
          ∃ v, mapGet app.Parameters (upperName process ++ "Cpu") = some v ∧
            IntLiteral v cpu) ∧
        (∃ v, mapGet app.Parameters (upperName process ++ "Memory") = some v ∧
          IntLiteral v memory)) ∧
    parseFormationIndividual upperNameSpec
        (appWith [("WebDesiredCount", "2"), ("WebMemory", "512")]) "web"
      = Except.ok (2, 0, 512) ∧
    parseFormationIndividual upperNameSpec
        (appWith [("WebCpu", "1"), ("WebMemory", "512")]) "web"
      = Except.error (GoError.errorf "web count not numeric") ∧
    parseFormationIndividual upperNameSpec
        (appWith [("WebDesiredCount", "2"), ("WebCpu", "1")]) "web"
      = Except.error (GoError.errorf "web memory not numeric") :=
  ⟨parseFormationIndividual_eq_ok, rfl, rfl, rfl⟩

/-- C9, refuted as stated: on the parameters `WebPort80Host`, `WebPort443Host`,
`WebOther` of the claim `processFormation` returns the decode error of `web`
and no ports; and on parameters that decode and hold the key `MyWebPort80Host`
but no key that is exactly `WebPort<N>Host`, the returned `Ports` is not empty. -/
theorem processFormation_ports_complete_counterexample :
    processFormation upperNameSpec
        (appWith [("WebPort80Host", "1"), ("WebPort443Host", "2"), ("WebOther", "x")]) ⟨"web"⟩
      = Except.error (GoError.errorf "web count not numeric") ∧
    processFormation upperNameSpec
        (appWith [("WebFormation", "2,1,512"), ("MyWebPort80Host", "1")]) ⟨"web"⟩
      = Except.ok
          { Balancer := "", Name := "web", Count := 2, Memory := 512, CPU := 1,
            Ports := [80] } ∧
    ∀ key ∈ mapKeys [("WebFormation", "2,1,512"), ("MyWebPort80Host", "1")],
      ∀ N : List Char, key ≠ upperNameSpec "web" ++ "Port" ++ String.mk N ++ "Host" := by
  refine ⟨rfl, rfl, ?_⟩
  intro key hkey N h
  have hu : upperNameSpec "web" = "Web" := by decide
  have hd := congrArg String.data h
  rw [hu] at hd
  simp only [String.data_append] at hd
  have hfirst := congrArg (fun l => l.get? 3) hd
  simp only [mapKeys, List.map_cons, List.map_nil, List.mem_cons, List.mem_singleton,
    List.not_mem_nil, or_false] at hkey
  rcases hkey with rfl | rfl
  · simp at hfirst
  · simp at hfirst

/-- C9, amended. Port discovery finds every well-formed port key: when decode
succeeds, `processFormation` returns a formation (no error) whose `Ports` hold
the number `N` of every key that is exactly `<Prefix>Port<N>Host`, with `N` one
or more digits inside the range of `int`; when the pattern occurs in no key,
neither as a whole key nor inside one, `Ports` is empty.  The prefix is
alphanumeric, so the expression matches it literally.  On the parameters
`WebPort80Host`, `WebPort443Host`, `WebOther` the port loop yields 80 and 443,
and so does `processFormation` once a decodable `WebFormation` is added. -/
theorem processFormation_ports_complete (upperName : String → String) (a : App) (s : Service)
    (count cpu memory : Int)
    (_hpre : ∀ c ∈ (upperName s.Name).data, c.isAlphanum = true)
    (hdec : parseFormationParameters upperName a s.Name = Except.ok (count, cpu, memory)) :
    (∃ pf, processFormation upperName a s = Except.ok pf ∧
      (∀ N : List Char, IsDecimal N → decimalValue N < 2 ^ 63 →
        upperName s.Name ++ "Port" ++ String.mk N ++ "Host" ∈ mapKeys a.Parameters →
        (decimalValue N : Int) ∈ pf.Ports) ∧
      ((∀ key ∈ mapKeys a.Parameters, ∀ N, ¬ PortPatternOccurs (upperName s.Name) key N) →
        pf.Ports = [])) ∧
    discoverPorts upperNameSpec
        (appWith [("WebPort80Host", "1"), ("WebPort443Host", "2"), ("WebOther", "x")]) ⟨"web"⟩
      = [80, 443] ∧
    processFormation upperNameSpec
        (appWith [("WebFormation", "2,1,512"), ("WebPort80Host", "1"), ("WebPort443Host", "2"),
          ("WebOther", "x")]) ⟨"web"⟩
      = Except.ok
          { Balancer := "", Name := "web", Count := 2, Memory := 512, CPU := 1,
            Ports := [80, 443] } := by
  refine ⟨?_, rfl, rfl⟩
  obtain ⟨pf, hpf, hports⟩ := processFormation_ok upperName a s count cpu memory hdec
  refine ⟨pf, hpf, ?_, ?_⟩
  · intro N hd hr hkey
    rw [hports, discoverPorts_eq, List.mem_filterMap]
    refine ⟨_, hkey, ?_⟩
    rw [portOfKey_exact _ N hd, Atoi_decimal N hd hr]
  · intro hno
    rw [hports, discoverPorts_eq, List.filterMap_eq_nil_iff]
    intro key hkey
    cases hk : portOfKey (upperName s.Name) key with
    | none => rfl
    | some n =>
      obtain ⟨N, hN, _⟩ := portOfKey_some _ _ _ hk
      exact absurd hN (hno key hkey N)

/-- C9 amended, at a concrete input: the parameters of the claim together with
a combined formation value, for process `web`. -/
theorem processFormation_ports_complete_witness :
    (∀ c ∈ (upperNameSpec "web").data, c.isAlphanum = true) ∧
    parseFormationParameters upperNameSpec
        (appWith [("WebFormation", "2,1,512"), ("WebPort80Host", "1"), ("WebPort443Host", "2"),
          ("WebOther", "x")]) "web" = Except.ok (2, 1, 512) ∧
    ∃ pf, processFormation upperNameSpec
        (appWith [("WebFormation", "2,1,512"), ("WebPort80Host", "1"), ("WebPort443Host", "2"),
          ("WebOther", "x")]) ⟨"web"⟩ = Except.ok pf ∧
      (80 : Int) ∈ pf.Ports ∧ (443 : Int) ∈ pf.Ports :=
  ⟨by decide, rfl,
    (processFormation_ports_complete upperNameSpec
      (appWith [("WebFormation", "2,1,512"), ("WebPort80Host", "1"), ("WebPort443Host", "2"),
        ("WebOther", "x")]) ⟨"web"⟩ 2 1 512 (by decide) rfl).1.imp
      (fun _ h => ⟨h.1,
        h.2.1 ['8', '0'] (by unfold IsDecimal; decide) (by decide) (by decide),
        h.2.1 ['4', '4', '3'] (by unfold IsDecimal; decide) (by decide) (by decide)⟩)⟩

/-- C10. The code at the failing input: for process `web` the keys
`MyWebPort80Host` and `WebPort443HostExtra`, neither of which is exactly
`WebPort<N>Host`, contribute the ports 80 and 443, because the expression of
line 204 is searched for anywhere in the key. -/
theorem processFormation_ports_unanchored :
    processFormation upperNameSpec
        (appWith [("WebFormation", "2,1,512"), ("MyWebPort80Host", "1"),
          ("WebPort443HostExtra", "2")]) ⟨"web"⟩
      = Except.ok
          { Balancer := "", Name := "web", Count := 2, Memory := 512, CPU := 1,
            Ports := [80, 443] } ∧
    ∀ key ∈ mapKeys [("WebFormation", "2,1,512"), ("MyWebPort80Host", "1"),
        ("WebPort443HostExtra", "2")],
      ∀ N : List Char, key ≠ upperNameSpec "web" ++ "Port" ++ String.mk N ++ "Host" := by
  refine ⟨rfl, ?_⟩
  intro key hkey N h
  have hu : upperNameSpec "web" = "Web" := by decide
  have hd := congrArg String.data h
  rw [hu] at hd
  simp only [String.data_append] at hd
  have hfirst := congrArg (fun l => l.get? 3) hd
  have hlast := congrArg (fun l => l.reverse.head?) hd
  simp only [mapKeys, List.map_cons, List.map_nil, List.mem_cons, List.mem_singleton,
    List.not_mem_nil, or_false] at hkey
  rcases hkey with rfl | rfl | rfl
  · simp at hfirst
  · simp at hfirst
  · simp at hlast

/-- C11, refuted as stated: for process `web` the distinct keys `WebPort80Host`
and `WebPort080Host` both denote 80, and the returned `Ports` holds 80 twice. -/
theorem processFormation_ports_duplicate_counterexample :
    processFormation upperNameSpec
        (appWith [("WebFormation", "2,1,512"), ("WebPort80Host", "1"), ("WebPort080Host", "2")])
        ⟨"web"⟩
      = Except.ok
          { Balancer := "", Name := "web", Count := 2, Memory := 512, CPU := 1,
            Ports := [80, 80] } ∧
    ¬ ([80, 80] : List Int).Nodup := by
  refine ⟨rfl, ?_⟩
  decide

/-- C11, amended. For every prefix and every parameter mapping, the returned
`Ports` holds one entry for every key that the port expression matches, in
iteration order, the entry being the integer `Atoi` returns for the digits of
the key (the largest `int` for digits beyond the range of `int`).  Duplicates
are not removed: an integer occurs in `Ports` once per matched key that yields
it, hence at least twice when two distinct keys yield it; no integer occurs
twice when no two distinct keys yield the same integer, the keys of a map being
distinct.  The same holds of the port loop for an arbitrary expression. -/
theorem processFormation_ports_per_key (upperName : String → String) (a : App) (s : Service)
    (pf : ProcessFormation)
    (hok : processFormation upperName a s = Except.ok pf) :
    pf.Ports = (mapKeys a.Parameters).filterMap (portOfKey (upperName s.Name)) ∧
    (∀ n, pf.Ports.count n
      = (mapKeys a.Parameters).countP
          (fun k => decide (portOfKey (upperName s.Name) k = some n))) ∧
    (∀ k ∈ mapKeys a.Parameters, ∀ k' ∈ mapKeys a.Parameters, ∀ n, k ≠ k' →
      portOfKey (upperName s.Name) k = some n → portOfKey (upperName s.Name) k' = some n →
      2 ≤ pf.Ports.count n) ∧
    ((mapKeys a.Parameters).Nodup →
      (∀ k ∈ mapKeys a.Parameters, ∀ k' ∈ mapKeys a.Parameters, ∀ n,
        portOfKey (upperName s.Name) k = some n → portOfKey (upperName s.Name) k' = some n →
          k = k') →
      pf.Ports.Nodup) ∧
    pf.Ports = portLoop (FindStringSubmatch (upperName s.Name)) (mapKeys a.Parameters) ∧
    (∀ (find : String → List String) (keys : List String),
      portLoop find keys = keys.filterMap (portWith find) ∧
      (∀ n, (portLoop find keys).count n
        = keys.countP (fun k => decide (portWith find k = some n))) ∧
      (keys.Nodup →
        (∀ k ∈ keys, ∀ k' ∈ keys, ∀ n,
          portWith find k = some n → portWith find k' = some n → k = k') →
        (portLoop find keys).Nodup)) ∧
    processFormation upperNameSpec
        (appWith [("WebFormation", "2,1,512"), ("WebPort9223372036854775808Host", "1"),
          ("WebPort9223372036854775809Host", "2")]) ⟨"web"⟩
      = Except.ok
          { Balancer := "", Name := "web", Count := 2, Memory := 512, CPU := 1,
            Ports := [9223372036854775807, 9223372036854775807] } := by
  have hports := processFormation_ports upperName a s pf hok
  have hfm := hports
  rw [discoverPorts_eq] at hfm
  refine ⟨hfm, ?_, ?_, ?_, hports.trans (discoverPorts_eq_portLoop upperName a s), ?_, rfl⟩
  · intro n
    rw [hfm, count_filterMap_eq_countP]
  · intro k hk k' hk' n hne h1 h2
    rw [hfm, count_filterMap_eq_countP]
    exact two_le_countP _ _ k k' hk hk' hne (by simp [h1]) (by simp [h2])
  · intro hkeys hinj
    rw [hfm]
    exact nodup_filterMap_of_injOn _ _ hkeys hinj
  · intro find keys
    refine ⟨portLoop_eq_filterMap find keys, fun n => ?_, fun hkeys hinj => ?_⟩
    · rw [portLoop_eq_filterMap, count_filterMap_eq_countP]
    · rw [portLoop_eq_filterMap]
      exact nodup_filterMap_of_injOn _ _ hkeys hinj

/-- C11 amended, at concrete inputs: the keys `WebPort80Host` and
`WebPort080Host` of process `web` both yield 80, which occurs twice; the keys
`WebPort80Host` and `WebPort443Host` yield 80 and 443, each once. -/
theorem processFormation_ports_per_key_witness :
    2 ≤ ([80, 80] : List Int).count 80 ∧
    (mapKeys [("WebFormation", "2,1,512"), ("WebPort80Host", "1"),
      ("WebPort443Host", "2")]).Nodup ∧
    ([80, 443] : List Int).Nodup :=
  ⟨(processFormation_ports_per_key upperNameSpec
      (appWith [("WebFormation", "2,1,512"), ("WebPort80Host", "1"), ("WebPort080Host", "2")])
      ⟨"web"⟩
      { Balancer := "", Name := "web", Count := 2, Memory := 512, CPU := 1, Ports := [80, 80] }
      rfl).2.2.1 "WebPort80Host" (by decide) "WebPort080Host" (by decide) 80 (by decide)
      (by decide) (by decide),
    by decide,
    (processFormation_ports_per_key upperNameSpec
      (appWith [("WebFormation", "2,1,512"), ("WebPort80Host", "1"), ("WebPort443Host", "2")])
      ⟨"web"⟩
      { Balancer := "", Name := "web", Count := 2, Memory := 512, CPU := 1, Ports := [80, 443] }
      rfl).2.2.2.1 (by decide) (by decide)⟩

/-- C12. Balancer resolution: the `Balancer` of the returned formation is the
output `Balancer<Prefix>Host` when that output is present and non-empty, and
otherwise the output `BalancerHost`, the empty string when that is absent; the
process-specific output wins when both are non-empty. -/
theorem processFormation_balancer (upperName : String → String) (a : App) (s : Service)
    (pf : ProcessFormation) (hok : processFormation upperName a s = Except.ok pf) :
    (∀ v, mapGet a.Outputs ("Balancer" ++ upperName s.Name ++ "Host") = some v → v ≠ "" →
      pf.Balancer = v) ∧
    ((mapGet a.Outputs ("Balancer" ++ upperName s.Name ++ "Host") = none ∨
        mapGet a.Outputs ("Balancer" ++ upperName s.Name ++ "Host") = some "") →
      pf.Balancer = (mapGet a.Outputs "BalancerHost").getD "") := by
  obtain ⟨_, _, hb⟩ := processFormation_fields upperName a s pf hok
  rw [hb]
  constructor
  · intro v hv hne
    simp [coalesceString, mapIndex, hv, hne]
  · intro h
    have h0 : (mapGet a.Outputs ("Balancer" ++ upperName s.Name ++ "Host")).getD "" = "" := by
      rcases h with h | h <;> simp [h]
    simp only [coalesceString, mapIndex, h0, ne_eq, not_true_eq_false, if_false]
    by_cases hg : (mapGet a.Outputs "BalancerHost").getD "" = ""
    · simp [hg]
    · simp [hg]

/-- C12, at concrete inputs: with both outputs non-empty the process-specific
one is the balancer; with only `BalancerHost` it is the balancer. -/
theorem processFormation_balancer_witness :
    (mapGet [("BalancerHost", "main.elb"), ("BalancerWebHost", "web.elb")]
        ("Balancer" ++ upperNameSpec "web" ++ "Host") = some "web.elb" ∧
      processFormation upperNameSpec
          (releasedApp [("WebFormation", "2,1,512")]
            [("BalancerHost", "main.elb"), ("BalancerWebHost", "web.elb")]) ⟨"web"⟩
        = Except.ok (ProcessFormation.mk "web.elb" "web" 2 512 1 []) ∧
      (ProcessFormation.mk "web.elb" "web" 2 512 1 []).Balancer = "web.elb") ∧
    (mapGet [("BalancerHost", "main.elb")] ("Balancer" ++ upperNameSpec "web" ++ "Host") = none ∧
      processFormation upperNameSpec
          (releasedApp [("WebFormation", "2,1,512")] [("BalancerHost", "main.elb")]) ⟨"web"⟩
        = Except.ok (ProcessFormation.mk "main.elb" "web" 2 512 1 []) ∧
      (ProcessFormation.mk "main.elb" "web" 2 512 1 []).Balancer
        = (mapGet [("BalancerHost", "main.elb")] "BalancerHost").getD "") :=
  ⟨⟨rfl, rfl,
      (processFormation_balancer upperNameSpec
        (releasedApp [("WebFormation", "2,1,512")]
          [("BalancerHost", "main.elb"), ("BalancerWebHost", "web.elb")]) ⟨"web"⟩
        (ProcessFormation.mk "web.elb" "web" 2 512 1 []) rfl).1 "web.elb" rfl (by decide)⟩,
    ⟨rfl, rfl,
      (processFormation_balancer upperNameSpec
        (releasedApp [("WebFormation", "2,1,512")] [("BalancerHost", "main.elb")]) ⟨"web"⟩
        (ProcessFormation.mk "main.elb" "web" 2 512 1 []) rfl).2 (Or.inl rfl)⟩⟩

/-- C13, refuted as stated: the stored value `-5,0,256` decodes, and the
returned formation has `Count = -5`, below `-1`. -/
theorem processFormation_count_counterexample :
    processFormation upperNameSpec (appWith [("WebFormation", "-5,0,256")]) ⟨"web"⟩
      = Except.ok
          { Balancer := "", Name := "web", Count := -5, Memory := 256, CPU := 0, Ports := [] } ∧
    ¬ ((-1 : Int) ≤ -5) := by
  refine ⟨rfl, ?_⟩
  decide

/-- C13, amended. The `Count` of a decoded formation is the count that
`parseFormationParameters` reads from the parameters, without a range check; it
is at least `-1` when the parameters are those that a validated `FormationSave`
of the process wrote: decoding them succeeds and returns the saved count. -/
theorem processFormation_count_after_save (upperName : String → String) (a : App)
    (pf : ProcessFormation) (capacity : Capacity)
    (hv : RangeRules pf capacity)
    (hc : IsInt64 pf.Count) (hu : IsInt64 pf.CPU) (hm : IsInt64 pf.Memory) :
    (∀ (b : App) (s : Service) (got : ProcessFormation),
      processFormation upperName b s = Except.ok got →
        parseFormationParameters upperName b s.Name
          = Except.ok (got.Count, got.CPU, got.Memory)) ∧
    ∃ got, processFormation upperName
        { a with Parameters := mapMerge a.Parameters (formationPatch upperName a pf) } ⟨pf.Name⟩
          = Except.ok got ∧
      got.Count = pf.Count ∧ -1 ≤ got.Count := by
  refine ⟨fun b s got h => (processFormation_fields upperName b s got h).1, ?_⟩
  have hrt := parseFormationParameters_roundtrip upperName a pf hc hu hm
  obtain ⟨got, hgot, _⟩ := processFormation_ok upperName
    { a with Parameters := mapMerge a.Parameters (formationPatch upperName a pf) } ⟨pf.Name⟩
    pf.Count pf.CPU pf.Memory hrt
  have hf := (processFormation_fields upperName _ _ got hgot).1
  rw [hrt] at hf
  simp only [Except.ok.injEq, Prod.mk.injEq] at hf
  exact ⟨got, hgot, hf.1.symm, by rw [← hf.1]; exact hv.1⟩

/-- C13 amended, at a concrete input: after a validated save of `(2, 1, 512)`
for process `web` the decoded count is 2. -/
theorem processFormation_count_after_save_witness :
    RangeRules (formationOf "web" 2 1 512) ⟨1024, 2048⟩ ∧
    ∃ got, processFormation upperNameSpec
        { appWith [("WebFormation", "1,0,256")] with
          Parameters := mapMerge [("WebFormation", "1,0,256")]
            (formationPatch upperNameSpec (appWith [("WebFormation", "1,0,256")])
              (formationOf "web" 2 1 512)) } ⟨"web"⟩
          = Except.ok got ∧
      got.Count = 2 ∧ -1 ≤ got.Count :=
  ⟨by unfold RangeRules; decide,
    (processFormation_count_after_save upperNameSpec (appWith [("WebFormation", "1,0,256")])
      (formationOf "web" 2 1 512) ⟨1024, 2048⟩ (by unfold RangeRules; decide)
      (by decide) (by decide) (by decide)).2⟩

/-- C14, refuted as stated: the manifest declares `web` before `worker`; the
services map holds the same two entries whichever order a `range` visits them
in, and the two visiting orders give two different results, the first of which
starts with the formation of `worker`. -/
theorem FormationList_order_counterexample :
    List.Perm [("worker", Service.mk "worker"), ("web", Service.mk "web")]
      ([Service.mk "web", Service.mk "worker"].map (fun s => (s.Name, s))) ∧
    (FormationList upperNameSpec
        (providerWith (releasedApp [("WebFormation", "2,1,512"), ("WorkerFormation", "1,0,256")] [])
          ⟨1024, 2048⟩ none)
        (releaseStore "manifest")
        (loaderOf [("worker", Service.mk "worker"), ("web", Service.mk "web")]) "app").2
      = Except.ok [ProcessFormation.mk "" "worker" 1 256 0 [], ProcessFormation.mk "" "web" 2 512 1 []] ∧
    (FormationList upperNameSpec
        (providerWith (releasedApp [("WebFormation", "2,1,512"), ("WorkerFormation", "1,0,256")] [])
          ⟨1024, 2048⟩ none)
        (releaseStore "manifest")
        (loaderOf [("web", Service.mk "web"), ("worker", Service.mk "worker")]) "app").2
      = Except.ok [ProcessFormation.mk "" "web" 2 512 1 [], ProcessFormation.mk "" "worker" 1 256 0 []] :=
  ⟨List.Perm.swap _ _ _, rfl, rfl⟩

/-- C14, amended. For a released app whose processes all decode, `FormationList`
returns one formation per declared service, in the order in which the `range`
over the services map visits them: the i-th element of the result is the
formation of the i-th visited service, and the result is a permutation of the
formations of the services in declaration order. -/
theorem FormationList_visit_order (upperName : String → String) (p : AWSProvider)
    (ReleaseGet : String → String → Except GoError Release)
    (manifestLoad : String → Except GoError Manifest) (app : String)
    (a : App) (release : Release) (m : Manifest)
    (hA : p.AppGet app = Except.ok a) (hrel : a.Release ≠ "")
    (hR : ReleaseGet a.Name a.Release = Except.ok release)
    (hL : manifestLoad release.Manifest = Except.ok m)
    (hall : ∀ sv ∈ m.Services, ∃ t,
      parseFormationParameters upperName a sv.2.Name = Except.ok t) :
    ∃ fs, (FormationList upperName p ReleaseGet manifestLoad app).2 = Except.ok fs ∧
      fs.length = m.Services.length ∧
      fs.map Except.ok = m.Services.map (fun sv => processFormation upperName a sv.2) ∧
      ∀ declared : List Service, List.Perm (declared.map (fun s => (s.Name, s))) m.Services →
        List.Perm (fs.map Except.ok) (declared.map (processFormation upperName a)) := by
  rw [FormationList_released upperName p ReleaseGet manifestLoad app a release m hA hrel hR hL]
  obtain ⟨fs, hfs⟩ := formationLoop_ok_of_all upperName a m.Services hall
  obtain ⟨rest, h1, h2⟩ := (formationLoop_ok_iff upperName a m.Services [] fs).1 hfs
  rw [List.nil_append] at h1
  subst h1
  refine ⟨fs, hfs, ?_, h2, ?_⟩
  · have := congrArg List.length h2
    simpa using this
  · intro declared hperm
    rw [h2]
    have := (hperm.map (fun sv => processFormation upperName a sv.2)).symm
    simpa [List.map_map, Function.comp_def] using this

/-- C14 amended, at a concrete input: the services map of `web` and `worker`,
visited `worker` first. -/
theorem FormationList_visit_order_witness :
    (releasedApp [("WebFormation", "2,1,512"), ("WorkerFormation", "1,0,256")] []).Release ≠ "" ∧
    ∃ fs, (FormationList upperNameSpec
          (providerWith
            (releasedApp [("WebFormation", "2,1,512"), ("WorkerFormation", "1,0,256")] [])
            ⟨1024, 2048⟩ none)
          (releaseStore "manifest")
          (loaderOf [("worker", Service.mk "worker"), ("web", Service.mk "web")]) "app").2
        = Except.ok fs ∧
      fs.length = 2 :=
  ⟨by decide,
    (FormationList_visit_order upperNameSpec
      (providerWith (releasedApp [("WebFormation", "2,1,512"), ("WorkerFormation", "1,0,256")] [])
        ⟨1024, 2048⟩ none)
      (releaseStore "manifest")
      (loaderOf [("worker", Service.mk "worker"), ("web", Service.mk "web")]) "app"
      (releasedApp [("WebFormation", "2,1,512"), ("WorkerFormation", "1,0,256")] [])
      ⟨"R1", "manifest"⟩ ⟨[("worker", Service.mk "worker"), ("web", Service.mk "web")]⟩
      rfl (by decide) rfl rfl
      (by
        intro sv hsv
        simp only [List.mem_cons, List.mem_singleton, List.not_mem_nil, or_false] at hsv
        rcases hsv with rfl | rfl
        · exact ⟨(1, 0, 256), rfl⟩
        · exact ⟨(2, 1, 512), rfl⟩)).imp
      (fun _ h => ⟨h.1, h.2.1⟩)⟩

/-- C15. List is all-or-nothing: for a released app whose release and manifest
load, `FormationList` succeeds if and only if `parseFormationParameters`
succeeds for every service of the manifest; a failure returns the decode error
of a declared service and no formations; a success has exactly one entry per
service, carrying the name of that service. -/
theorem FormationList_all_or_nothing (upperName : String → String) (p : AWSProvider)
    (ReleaseGet : String → String → Except GoError Release)
    (manifestLoad : String → Except GoError Manifest) (app : String)
    (a : App) (release : Release) (m : Manifest)
    (hA : p.AppGet app = Except.ok a) (hrel : a.Release ≠ "")
    (hR : ReleaseGet a.Name a.Release = Except.ok release)
    (hL : manifestLoad release.Manifest = Except.ok m) :
    ((∃ fs, (FormationList upperName p ReleaseGet manifestLoad app).2 = Except.ok fs) ↔
      ∀ sv ∈ m.Services, ∃ t,
        parseFormationParameters upperName a sv.2.Name = Except.ok t) ∧
    (∀ e, (FormationList upperName p ReleaseGet manifestLoad app).2 = Except.error e →
      ∃ sv ∈ m.Services, parseFormationParameters upperName a sv.2.Name = Except.error e) ∧
    (∀ fs, (FormationList upperName p ReleaseGet manifestLoad app).2 = Except.ok fs →
      fs.length = m.Services.length ∧
        fs.map (fun pf => pf.Name) = m.Services.map (fun sv => sv.2.Name)) := by
  rw [FormationList_released upperName p ReleaseGet manifestLoad app a release m hA hrel hR hL]
  refine ⟨⟨?_, formationLoop_ok_of_all upperName a m.Services⟩, ?_, ?_⟩
  · rintro ⟨fs, hfs⟩ sv hsv
    obtain ⟨rest, _, h2⟩ := (formationLoop_ok_iff upperName a m.Services [] fs).1 hfs
    have hmem : processFormation upperName a sv.2 ∈ rest.map Except.ok := by
      rw [h2]
      exact List.mem_map.2 ⟨sv, hsv, rfl⟩
    obtain ⟨pf, _, hpf⟩ := List.mem_map.1 hmem
    exact (processFormation_ok_iff_parse upperName a sv.2).1 ⟨pf, hpf.symm⟩
  · intro e he
    obtain ⟨sv, hsv, h⟩ := formationLoop_error upperName a m.Services [] e he
    exact ⟨sv, hsv, (processFormation_error_iff upperName a sv.2 e).1 h⟩
  · intro fs hfs
    obtain ⟨rest, h1, h2⟩ := (formationLoop_ok_iff upperName a m.Services [] fs).1 hfs
    rw [List.nil_append] at h1
    subst h1
    exact ⟨by simpa using congrArg List.length h2, formation_names upperName a m.Services fs h2⟩

/-- C15, at a concrete input: the parameters of `worker` do not decode, and the
whole list fails with the decode error of `worker`. -/
theorem FormationList_all_or_nothing_witness :
    (releasedApp [("WebFormation", "2,1,512"), ("WorkerFormation", "1,x,256")] []).Release ≠ "" ∧
    ¬ (∃ fs, (FormationList upperNameSpec
          (providerWith
            (releasedApp [("WebFormation", "2,1,512"), ("WorkerFormation", "1,x,256")] [])
            ⟨1024, 2048⟩ none)
          (releaseStore "manifest")
          (loaderOf [("web", Service.mk "web"), ("worker", Service.mk "worker")]) "app").2
        = Except.ok fs) :=
  ⟨by decide, fun h =>
    absurd
      (((FormationList_all_or_nothing upperNameSpec
        (providerWith
          (releasedApp [("WebFormation", "2,1,512"), ("WorkerFormation", "1,x,256")] [])
          ⟨1024, 2048⟩ none)
        (releaseStore "manifest")
        (loaderOf [("web", Service.mk "web"), ("worker", Service.mk "worker")]) "app"
        (releasedApp [("WebFormation", "2,1,512"), ("WorkerFormation", "1,x,256")] [])
        ⟨"R1", "manifest"⟩ ⟨[("web", Service.mk "web"), ("worker", Service.mk "worker")]⟩
        rfl (by decide) rfl rfl).1.1 h) ("worker", Service.mk "worker") (by simp))
      (by
        rintro ⟨t, ht⟩
        have : parseFormationParameters upperNameSpec
            (releasedApp [("WebFormation", "2,1,512"), ("WorkerFormation", "1,x,256")] [])
            "worker" = Except.error (GoError.errorf "worker cpu not numeric") := rfl
        rw [this] at ht
        simp at ht)⟩

/-- C16. Never-released apps: when the release of the resolved app is the empty
string, `FormationList` returns an empty collection and no error, and the only
collaborator it consults is the app store: neither the release store nor the
manifest loader is called, whatever the parameters of the app hold. -/
theorem FormationList_unreleased (upperName : String → String) (p : AWSProvider)
    (ReleaseGet : String → String → Except GoError Release)
    (manifestLoad : String → Except GoError Manifest) (app : String) (a : App)
    (hA : p.AppGet app = Except.ok a) (hrel : a.Release = "") :
    FormationList upperName p ReleaseGet manifestLoad app = ([Call.AppGet app], Except.ok []) := by
  simp [FormationList, hA, hrel]

/-- C16, at a concrete input: an app without a release whose parameters do
not decode, with a release store and a loader that would fail. -/
theorem FormationList_unreleased_witness :
    FormationList upperNameSpec
        (providerWith (App.mk "app" "" [("WebFormation", "x")] []) ⟨1024, 2048⟩ none)
        (fun _ _ => Except.error (GoError.errorf "no such release"))
        (fun _ => Except.error (GoError.errorf "bad manifest")) "app"
      = ([Call.AppGet "app"], Except.ok []) :=
  FormationList_unreleased upperNameSpec
    (providerWith (App.mk "app" "" [("WebFormation", "x")] []) ⟨1024, 2048⟩ none)
    (fun _ _ => Except.error (GoError.errorf "no such release"))
    (fun _ => Except.error (GoError.errorf "bad manifest")) "app"
    (App.mk "app" "" [("WebFormation", "x")] []) rfl rfl

/-- C17. Get fails for a missing release or an undeclared process: for a
resolved app, `FormationGet` returns the error `no release for app: <app>` when
the release is empty; when the release and the manifest load, it returns the
error `no such process: <process>` when the process is no key of the services
map, and exactly the result of `processFormation` for the service stored under
the process when it is one. -/
theorem FormationGet_cases (upperName : String → String) (p : AWSProvider)
    (ReleaseGet : String → String → Except GoError Release)
    (manifestLoad : String → Except GoError Manifest) (app process : String) (a : App)
    (hA : p.AppGet app = Except.ok a) :
    (a.Release = "" →
      (FormationGet upperName p ReleaseGet manifestLoad app process).2
        = Except.error (GoError.errorf ("no release for app: " ++ app))) ∧
    (∀ (release : Release) (m : Manifest), a.Release ≠ "" →
      ReleaseGet a.Name a.Release = Except.ok release →
      manifestLoad release.Manifest = Except.ok m →
      (process ∉ m.Services.map Prod.fst →
        (FormationGet upperName p ReleaseGet manifestLoad app process).2
          = Except.error (GoError.errorf ("no such process: " ++ process))) ∧
      (∀ s, servicesGet m.Services process = some s →
        (FormationGet upperName p ReleaseGet manifestLoad app process).2
          = processFormation upperName a s)) := by
  constructor
  · intro hrel
    simp [FormationGet, hA, hrel]
  · intro release m hrel hR hL
    rw [FormationGet_released upperName p ReleaseGet manifestLoad app process a release m hA
      hrel hR hL]
    constructor
    · intro hnot
      rw [(servicesGet_eq_none_iff m.Services process).2 hnot]
    · intro s hs
      rw [hs]

/-- C17, at concrete inputs: no release; an undeclared process `cron`; the
declared process `web`. -/
theorem FormationGet_cases_witness :
    (FormationGet upperNameSpec
        (providerWith (App.mk "app" "" [("WebFormation", "2,1,512")] []) ⟨1024, 2048⟩ none)
        (releaseStore "manifest") (loaderOf [("web", Service.mk "web")]) "app" "web").2
      = Except.error (GoError.errorf "no release for app: app") ∧
    (FormationGet upperNameSpec
        (providerWith (releasedApp [("WebFormation", "2,1,512")] []) ⟨1024, 2048⟩ none)
        (releaseStore "manifest") (loaderOf [("web", Service.mk "web")]) "app" "cron").2
      = Except.error (GoError.errorf "no such process: cron") ∧
    (FormationGet upperNameSpec
        (providerWith (releasedApp [("WebFormation", "2,1,512")] []) ⟨1024, 2048⟩ none)
        (releaseStore "manifest") (loaderOf [("web", Service.mk "web")]) "app" "web").2
      = processFormation upperNameSpec (releasedApp [("WebFormation", "2,1,512")] [])
          (Service.mk "web") :=
  ⟨(FormationGet_cases upperNameSpec
      (providerWith (App.mk "app" "" [("WebFormation", "2,1,512")] []) ⟨1024, 2048⟩ none)
      (releaseStore "manifest") (loaderOf [("web", Service.mk "web")]) "app" "web"
      (App.mk "app" "" [("WebFormation", "2,1,512")] []) rfl).1 rfl,
    ((FormationGet_cases upperNameSpec
      (providerWith (releasedApp [("WebFormation", "2,1,512")] []) ⟨1024, 2048⟩ none)
      (releaseStore "manifest") (loaderOf [("web", Service.mk "web")]) "app" "cron"
      (releasedApp [("WebFormation", "2,1,512")] []) rfl).2
        ⟨"R1", "manifest"⟩ ⟨[("web", Service.mk "web")]⟩ (by decide) rfl rfl).1 (by decide),
    ((FormationGet_cases upperNameSpec
      (providerWith (releasedApp [("WebFormation", "2,1,512")] []) ⟨1024, 2048⟩ none)
      (releaseStore "manifest") (loaderOf [("web", Service.mk "web")]) "app" "web"
      (releasedApp [("WebFormation", "2,1,512")] []) rfl).2
        ⟨"R1", "manifest"⟩ ⟨[("web", Service.mk "web")]⟩ (by decide) rfl rfl).2
      (Service.mk "web") rfl⟩

/-- C18. Decode errors name the process and the failing field: when a field is
not a valid integer, the error is `<process> <field> not numeric` for the first
of count, cpu, memory whose text is not a valid integer, in the combined scheme
(a value of three comma-separated fields) and in the individual scheme (a
missing count or memory text being the empty text, an absent `Cpu` key being
skipped); later malformed fields do not change the field that is reported. -/
theorem parseFormationParameters_error_field (upperName : String → String) (app : App)
    (process : String) :
    (∀ x y z : String,
      mapGet app.Parameters (upperName process ++ "Formation")
        = some (x ++ "," ++ y ++ "," ++ z) →
      ',' ∉ x.data → ',' ∉ y.data →
      (¬ IsIntLiteral x →
        parseFormationParameters upperName app process
          = Except.error (notNumericError process "count")) ∧
      (IsIntLiteral x → ¬ IsIntLiteral y →
        parseFormationParameters upperName app process
          = Except.error (notNumericError process "cpu")) ∧
      (IsIntLiteral x → IsIntLiteral y → ¬ IsIntLiteral z →
        parseFormationParameters upperName app process
          = Except.error (notNumericError process "memory"))) ∧
    (mapGet app.Parameters (upperName process ++ "Formation") = none →
      (¬ IsIntLiteral (mapIndex app.Parameters (upperName process ++ "DesiredCount")) →
        parseFormationParameters upperName app process
          = Except.error (notNumericError process "count")) ∧
      (IsIntLiteral (mapIndex app.Parameters (upperName process ++ "DesiredCount")) →
        (∃ v, mapGet app.Parameters (upperName process ++ "Cpu") = some v ∧ ¬ IsIntLiteral v) →
        parseFormationParameters upperName app process
          = Except.error (notNumericError process "cpu")) ∧
      (IsIntLiteral (mapIndex app.Parameters (upperName process ++ "DesiredCount")) →
        (mapGet app.Parameters (upperName process ++ "Cpu") = none ∨
          ∃ v, mapGet app.Parameters (upperName process ++ "Cpu") = some v ∧ IsIntLiteral v) →
        ¬ IsIntLiteral (mapIndex app.Parameters (upperName process ++ "Memory")) →
        parseFormationParameters upperName app process
          = Except.error (notNumericError process "memory"))) := by
  constructor
  · intro x y z hv hx hy
    have hsel : parseFormationParameters upperName app process
        = parseFormationCombined upperName app process := by
      simp [parseFormationParameters, hv]
    have hparts : SplitN (mapIndex app.Parameters (upperName process ++ "Formation")) ',' 3
        = [x, y, z] := by
      simp only [mapIndex, hv, Option.getD_some]
      exact SplitN_three x y z hx hy
    rw [hsel]
    exact parseFormationCombined_parts upperName app process x y z hparts
  · intro hv
    have hsel : parseFormationParameters upperName app process
        = parseFormationIndividual upperName app process := by
      simp [parseFormationParameters, hv]
    rw [hsel]
    exact parseFormationIndividual_errors upperName app process

/-- C18, at concrete inputs: with count and memory both malformed the count is
reported; with cpu and memory both malformed the cpu is reported. -/
theorem parseFormationParameters_error_field_witness :
    parseFormationParameters upperNameSpec (appWith [("WebFormation", "a,1,b")]) "web"
      = Except.error (GoError.errorf "web count not numeric") ∧
    parseFormationParameters upperNameSpec
        (appWith [("WebDesiredCount", "2"), ("WebCpu", "x"), ("WebMemory", "y")]) "web"
      = Except.error (GoError.errorf "web cpu not numeric") :=
  ⟨((parseFormationParameters_error_field upperNameSpec (appWith [("WebFormation", "a,1,b")])
      "web").1 "a" "1" "b" rfl (by decide) (by decide)).1
      (not_literal_of_error "a" (by decide)),
    ((parseFormationParameters_error_field upperNameSpec
      (appWith [("WebDesiredCount", "2"), ("WebCpu", "x"), ("WebMemory", "y")]) "web").2 rfl).2.1
      (literal_of_no_error "2" (by decide))
      ⟨"x", rfl, not_literal_of_error "x" (by decide)⟩⟩

/-- C19. The scheme is selected by key presence alone and there is no fallback:
two parameter mappings that hold the same value under `<Prefix>Formation`
decode to the same result, whatever they hold under the three individual keys;
a malformed combined value is an error even next to three valid individual
keys; without the combined key the result is that of `parseFormationIndividual`. -/
theorem parseFormationParameters_scheme (upperName : String → String) (a b : App)
    (process v : String) :
    (mapGet a.Parameters (upperName process ++ "Formation") = some v →
      mapGet b.Parameters (upperName process ++ "Formation") = some v →
      parseFormationParameters upperName a process
        = parseFormationParameters upperName b process) ∧
    (mapGet a.Parameters (upperName process ++ "Formation") = none →
      parseFormationParameters upperName a process
        = parseFormationIndividual upperName a process) ∧
    parseFormationParameters upperNameSpec
        (appWith [("WebFormation", "2,x,512"), ("WebDesiredCount", "2"), ("WebCpu", "1"),
          ("WebMemory", "512")]) "web"
      = Except.error (GoError.errorf "web cpu not numeric") := by
  refine ⟨fun ha hb => ?_, fun ha => ?_, rfl⟩
  · simp [parseFormationParameters, parseFormationCombined, mapIndex, ha, hb]
  · simp [parseFormationParameters, ha]

/-- C19, at concrete inputs: the same combined value with and without
individual keys next to it. -/
theorem parseFormationParameters_scheme_witness :
    parseFormationParameters upperNameSpec (appWith [("WebFormation", "2,1,512")]) "web"
      = parseFormationParameters upperNameSpec
          (appWith [("WebDesiredCount", "7"), ("WebFormation", "2,1,512"), ("WebCpu", "x")])
          "web" ∧
    parseFormationParameters upperNameSpec
        (appWith [("WebDesiredCount", "7"), ("WebMemory", "64")]) "web"
      = parseFormationIndividual upperNameSpec
          (appWith [("WebDesiredCount", "7"), ("WebMemory", "64")]) "web" :=
  ⟨(parseFormationParameters_scheme upperNameSpec (appWith [("WebFormation", "2,1,512")])
      (appWith [("WebDesiredCount", "7"), ("WebFormation", "2,1,512"), ("WebCpu", "x")])
      "web" "2,1,512").1 rfl rfl,
    (parseFormationParameters_scheme upperNameSpec
      (appWith [("WebDesiredCount", "7"), ("WebMemory", "64")]) (appWith []) "web" "").2.1 rfl⟩

/-- C20. The error `<process> formation settings not in Count,Cpu,Memory format`
is returned exactly for too few fields: `parseFormationCombined` returns it if
and only if the combined value holds fewer than two commas; a value with three
or more commas gets a count, cpu or memory `not numeric` error instead, the
third part of the split keeping the remaining commas. -/
theorem parseFormationCombined_format_error_iff :
    (∀ (upperName : String → String) (app : App) (process : String),
      (parseFormationCombined upperName app process = Except.error (formatError process) ↔
        (mapIndex app.Parameters (upperName process ++ "Formation")).data.count ',' < 2) ∧
      (3 ≤ (mapIndex app.Parameters (upperName process ++ "Formation")).data.count ',' →
        parseFormationCombined upperName app process
            = Except.error (notNumericError process "count") ∨
          parseFormationCombined upperName app process
            = Except.error (notNumericError process "cpu") ∨
          parseFormationCombined upperName app process
            = Except.error (notNumericError process "memory"))) ∧
    SplitN "2,1,512,9" ',' 3 = ["2", "1", "512,9"] ∧
    parseFormationCombined upperNameSpec (appWith [("WebFormation", "2,1,512,9")]) "web"
      = Except.error (GoError.errorf "web memory not numeric") ∧
    parseFormationCombined upperNameSpec (appWith [("WebFormation", "2,1")]) "web"
      = Except.error
          (GoError.errorf "web formation settings not in Count,Cpu,Memory format") := by
  refine ⟨fun upperName app process => ⟨?_, ?_⟩, by decide, rfl, rfl⟩
  · rcases SplitN_three_cases (mapIndex app.Parameters (upperName process ++ "Formation"))
      with ⟨h1, h2⟩ | ⟨x, y, z, h1, h2⟩
    · exact ⟨fun _ => h1, fun _ => parseFormationCombined_short upperName app process h2⟩
    · constructor
      · intro h
        exact absurd h (parseFormationCombined_three upperName app process x y z h1)
      · intro h
        omega
  · intro h3
    rcases SplitN_three_cases (mapIndex app.Parameters (upperName process ++ "Formation"))
      with ⟨h1, _⟩ | ⟨x, y, z, h1, h2⟩
    · omega
    · obtain ⟨p1, p2, p3⟩ := parseFormationCombined_parts upperName app process x y z h1
      have hz : ¬ IsIntLiteral z := not_literal_of_comma z (by omega)
      by_cases hx : IsIntLiteral x
      · by_cases hy : IsIntLiteral y
        · exact Or.inr (Or.inr (p3 hx hy hz))
        · exact Or.inr (Or.inl (p2 hx hy))
      · exact Or.inl (p1 hx)

end Formation
